import Mathlib

/-!
Shallow embedding of `brahmali.py` (obu-labs/brahmali-vinaya-notes), a batch
script that fetches HTML essay and glossary pages, splits each page into
per-section Markdown files, sanitizes file names and accumulates a map from
Pali word roots to glossary files.  Strings are modelled as `List Char` /
`String`, Python dictionaries as association logs where the most recent write
is found first, exceptions as `Except` errors.  The external libraries
(`markdownify`, `vnmutils.pali_stem`, the regex word-character table) are
opaque parameters: no claim depends on their internals.
-/

namespace Brahmali

/-- Python whitespace: the characters matched by `\s` in the `re` module on
`str` inputs, which is also the set stripped by `str.strip()`. -/
def pyIsSpace (c : Char) : Bool :=
  (0x09 ≤ c.val && c.val ≤ 0x0d) ||
  (0x1c ≤ c.val && c.val ≤ 0x1f) ||
  c.val == 0x20 || c.val == 0x85 || c.val == 0xa0 || c.val == 0x1680 ||
  (0x2000 ≤ c.val && c.val ≤ 0x200a) ||
  c.val == 0x2028 || c.val == 0x2029 || c.val == 0x202f || c.val == 0x205f ||
  c.val == 0x3000

/-- Python `str.replace(a, b)` for a one-character pattern `a`: every
occurrence of `a` is replaced by `b` (`b = []` deletes it). -/
def pyReplaceChar (a : Char) (b : List Char) (l : List Char) : List Char :=
  l.flatMap (fun c => if c = a then b else [c])

/-- Model of `re.sub(r'\s+', ' ', s)`: each maximal run of whitespace becomes
one space.  `prev` records whether the previous character belonged to a run
whose single replacement space was already emitted. -/
def collapseWSAux : Bool → List Char → List Char
  | _, [] => []
  | prev, c :: rest =>
    if pyIsSpace c then
      if prev then collapseWSAux true rest else ' ' :: collapseWSAux true rest
    else c :: collapseWSAux false rest

/-- Model of `re.sub(r'\s+', ' ', s)` on a whole string. -/
def collapseWS (l : List Char) : List Char := collapseWSAux false l

/-- Python `str.strip()`: remove leading and trailing whitespace. -/
def pyStrip (l : List Char) : List Char :=
  List.rdropWhile pyIsSpace (l.dropWhile pyIsSpace)

/-- The chain of single-character `str.replace` calls of `sanitize_file_name`
(brahmali.py:44), innermost first, in the source's order. -/
def replaceAll (l : List Char) : List Char :=
  pyReplaceChar '"' ['“']
    (pyReplaceChar '/' [' ']
      (pyReplaceChar ',' []
        (pyReplaceChar '.' []
          (pyReplaceChar ':' []
            (pyReplaceChar '—' ['-']
              (pyReplaceChar '–' ['-']
                (pyReplaceChar ' ' [' '] l)))))))

/-- Embedding of `sanitize_file_name` (brahmali.py:41-45): the replace chain,
then `re.sub(r'\s+', ' ', ...)`, then `.strip()`, in the source's order. -/
def sanitizeChars (l : List Char) : List Char :=
  pyStrip (collapseWS (replaceAll l))

/-- Embedding of `sanitize_file_name` on `String`. -/
def sanitize_file_name (title : String) : String :=
  String.mk (sanitizeChars title.data)

/-- Structural model of Python `str.replace(pat, rep)` for a non-empty
pattern: scan left to right, replacing non-overlapping occurrences.  The
fuel argument (the input's length) only makes the recursion structural. -/
def replaceAux (pat rep : List Char) : Nat → List Char → List Char
  | _, [] => []
  | 0, l => l
  | fuel + 1, c :: rest =>
    if pat.isPrefixOf (c :: rest) then
      rep ++ replaceAux pat rep fuel ((c :: rest).drop pat.length)
    else c :: replaceAux pat rep fuel rest

/-- Python `str.replace` on `String` (patterns here are never empty). -/
def strReplace (s pat rep : String) : String :=
  if pat.data.isEmpty then s
  else String.mk (replaceAux pat.data rep.data s.data.length s.data)

/-- Splitting a character list on a separator character, keeping empty
pieces, as Python `str.split(sep)` does for a one-character `sep`. -/
def splitOnChar (sep : Char) : List Char → List (List Char)
  | [] => [[]]
  | c :: rest =>
    if c = sep then [] :: splitOnChar sep rest
    else
      match splitOnChar sep rest with
      | [] => [[c]]
      | t :: ts => (c :: t) :: ts

/-- Joining pieces back with a separator character. -/
def joinWithChar (sep : Char) : List (List Char) → List Char
  | [] => []
  | [x] => x
  | x :: xs => x ++ sep :: joinWithChar sep xs

/-- The character rewriting described by the specification for
`sanitize_file_name`, as a single pass over the string: non-breaking space
becomes a space, en- and em-dashes become `'-'`, `':'`, `'.'` and `','` are
removed, `'/'` becomes a space and `'"'` becomes a left curly quote. -/
def specCharMap (c : Char) : List Char :=
  if c = ' ' then [' ']
  else if c = '–' ∨ c = '—' then ['-']
  else if c = ':' ∨ c = '.' ∨ c = ',' then []
  else if c = '/' then [' ']
  else if c = '"' then ['“']
  else [c]

/-- The characters the claim says never survive sanitization. -/
def forbiddenChar (c : Char) : Bool :=
  c == ':' || c == '.' || c == ',' || c == '/' || c == '"'

/-- Absence of two adjacent whitespace characters, the relation whose
`List.Chain'` closure states "no run of two or more whitespace characters". -/
def noTwoWS (a b : Char) : Prop := ¬(pyIsSpace a = true ∧ pyIsSpace b = true)

/-! Model of the HTML nodes seen by the sibling walks.  A `bs4` node is
summarized by the attributes the script reads: its tag name (`none` for a
`NavigableString`), its `id` and `role` attributes, its text, and the string
`sanitize_appendix_html` renders for it (the noteref stripping only rewrites
this payload, so it is folded into the `html` field).  The two glossary
fields summarize the `<i lang='pli'>` descendants of a glossary subheading:
their texts, and `str(...)` of the next sibling of the last of them (`none`
when that sibling is Python `None`). -/

structure Elem where
  name : Option String := none
  id : Option String := none
  role : Option String := none
  text : String := ""
  html : String := ""
  paliITexts : List String := []
  afterLastI : Option String := none
deriving Repr, DecidableEq

/-- Embedding of `CONTENT_TAGS` (brahmali.py:28-39); `none` stands for the
`None` name of a `NavigableString`. -/
def CONTENT_TAGS : List (Option String) :=
  [none, some "p", some "ul", some "ol", some "h3", some "h4", some "dl",
   some "blockquote", some "hr", some "dd"]

/-- Embedding of `TITLE_OVERRIDES` (brahmali.py:245-249). -/
def TITLE_OVERRIDES : List (String × String) :=
  [("https://suttacentral.net/edition/pli-tv-vi/en/brahmali/general-introduction?lang=en#origin",
    "Origin of the Vinaya"),
   ("https://suttacentral.net/edition/pli-tv-vi/en/brahmali/general-introduction?lang=en#content",
    "Contents of the Vinaya"),
   ("https://suttacentral.net/edition/pli-tv-vi/en/brahmali/pvr-introduction?lang=en#pvr-1.12.16",
    "Pvr 1-2")]

/-- Lookup `url in TITLE_OVERRIDES` / `TITLE_OVERRIDES[url]`. -/
def titleOverride (url : String) : Option String :=
  (TITLE_OVERRIDES.find? (fun kv => kv.1 == url)).map (fun kv => kv.2)

/-- One pending file write: `FileWriteJob`'s `path`, the HTML accumulated for
it (its `markdown` field is the markdownify image of this, applied at render
time below), and the `url` recorded for it. -/
structure FileJob where
  path : String
  html : String
  url : String
deriving Repr, DecidableEq

/-- `Path.joinpath` for one component. -/
def joinPath (folder name : String) : String := folder ++ "/" ++ name

/-- `self.folder.joinpath(f"{sanitize_file_name(title)}.md")`. -/
def essayFileName (folder title : String) : String :=
  joinPath folder (sanitize_file_name title ++ ".md")

def isSplitTag (split : String) (e : Elem) : Bool := e.name == some split

def isContentTag (e : Elem) : Bool := CONTENT_TAGS.contains e.name

def isEndnotesSection (e : Elem) : Bool :=
  e.name == some "section" && e.role == some "doc-endnotes"

/-- Embedding of the sibling loop of `ImportEssay.generate_files`
(brahmali.py:137-155).  The state is the pending file path, the HTML
accumulated since the last split tag, the url recorded for the pending file,
and the jobs created so far (in creation order, which is the order
`write_all` writes them).  Python exceptions are `Except.error`: the failed
`assert cur_elem.get('id')` on a split tag, the `KeyError` of
`cur_elem['role']` on a `section` without a role, and the final
`raise Exception("Unexpected tag ...")`. -/
def essayWalk (split folder baseUrl : String) :
    List Elem → String → String → String → List FileJob → Except String (List FileJob)
  | [], _, _, _, jobs => .ok jobs
  | e :: rest, curFile, htmlContent, curUrl, jobs =>
    if isSplitTag split e then
      let jobs' := jobs ++ [⟨curFile, htmlContent, curUrl⟩]
      match e.id with
      | some i =>
        if i = "" then .error "AssertionError: Expected split tag to have an id"
        else
          let url' := baseUrl ++ "#" ++ i
          let title' := (titleOverride url').getD e.text
          essayWalk split folder baseUrl rest (essayFileName folder title') "" url' jobs'
      | none => .error "AssertionError: Expected split tag to have an id"
    else if isContentTag e then
      essayWalk split folder baseUrl rest curFile (htmlContent ++ e.html) curUrl jobs
    else if e.name == some "section" then
      match e.role with
      | some r =>
        if r = "doc-endnotes" then .ok jobs
        else .error "Exception: Unexpected tag"
      | none => .error "KeyError: role"
    else .error "Exception: Unexpected tag"

/-- Parse-level summary of one essay page: the number of `h1` tags and the
text of the first, the number of `nav` tags, the sibling chain after the
`nav`, and the sibling chain after the `h1`. -/
structure EssayPage where
  h1count : Nat := 1
  h1title : String := ""
  navCount : Nat := 0
  afterNav : List Elem := []
  afterH1 : List Elem := []
deriving Repr, DecidableEq

/-- Embedding of `ImportEssay.generate_files` (brahmali.py:120-156).  When a
`nav` exists the walk starts at the nav, so every sibling after it is
processed; with no `nav` it starts at `h1.next_sibling`, and since the loop
advances before processing, the first sibling after the `h1` is never
processed.  An empty job list at the end is `file_write_job.write_all()` on
`None`. -/
def generate_files_essay (split folder baseUrl : String) (page : EssayPage) :
    Except String (List FileJob) :=
  if page.h1count ≠ 1 then .error "AssertionError: h1 count"
  else if page.navCount ≥ 2 then .error "Exception: nav count"
  else
    let sibs := if page.navCount = 1 then page.afterNav else page.afterH1.drop 1
    match essayWalk split folder baseUrl sibs
        (essayFileName folder page.h1title) "" baseUrl [] with
    | .error e => .error e
    | .ok jobs =>
      if jobs.isEmpty then .error "AttributeError: NoneType write_all"
      else .ok jobs

/-! Specification-level description of the walk, for claim C1: split the
sibling list at split-tag boundaries and bucket the content siblings. -/

/-- Concatenation of the rendered HTML of the content-tag members of a
segment, as the claim words it. -/
def contentConcat : List Elem → String
  | [] => ""
  | e :: rest => if isContentTag e then e.html ++ contentConcat rest else contentConcat rest

/-- Helper of `splitSegs`: `h` is the split element that opened the current
segment and `acc` the segment body collected so far (reversed). -/
def splitSegsAux (p : Elem → Bool) : List Elem → Elem → List Elem → List (Elem × List Elem)
  | [], h, acc => [(h, acc.reverse)]
  | e :: rest, h, acc =>
    if p e then (h, acc.reverse) :: splitSegsAux p rest e []
    else splitSegsAux p rest h (e :: acc)

/-- The segments of a list opened by elements satisfying `p`: each pair is a
`p`-element together with the run of non-`p` elements following it. -/
def splitSegs (p : Elem → Bool) : List Elem → List (Elem × List Elem)
  | [] => []
  | e :: rest => if p e then splitSegsAux p rest e [] else splitSegs p rest

/-- The file jobs a list of segments describes, per the claim: each
heading's file is named after its (possibly overridden) title, carries the
fragment url of its `id`, and holds the content of its own segment. -/
def segJobs (folder baseUrl : String) : List (Elem × List Elem) → List FileJob
  | [] => []
  | (h, body) :: rest =>
    let url := baseUrl ++ "#" ++ (h.id.getD "")
    let title := (titleOverride url).getD h.text
    ⟨essayFileName folder title, contentConcat body, url⟩ :: segJobs folder baseUrl rest

/-- The jobs still to be produced from `elems` given the pending state, per
the claim's reading: walk up to the endnotes section, start one file per
split tag (the pending file is emitted at the first split tag, each segment
at the next split tag), so the material after the last split tag is pending
forever and is never emitted. -/
def pendingSpec (split folder baseUrl : String) (elems : List Elem)
    (curFile htmlContent curUrl : String) : List FileJob :=
  if (splitSegs (isSplitTag split) (elems.takeWhile (fun e => !isEndnotesSection e))).isEmpty
  then []
  else
    ⟨curFile,
     htmlContent ++
       contentConcat
         ((elems.takeWhile (fun e => !isEndnotesSection e)).takeWhile
           (fun e => !isSplitTag split e)),
     curUrl⟩ ::
      segJobs folder baseUrl
        (splitSegs (isSplitTag split) (elems.takeWhile (fun e => !isEndnotesSection e))).dropLast

/-- Specification bucketing of a sibling list for claim C1: the material
before the first split tag goes into the file named after the page's `h1`
title, and each later file belongs to the preceding split heading. -/
def sectionsSpec (split folder baseUrl h1title : String) (elems : List Elem) : List FileJob :=
  pendingSpec split folder baseUrl elems (essayFileName folder h1title) "" baseUrl

/-! Model of `FileWriteJob.write_all` / `write` (brahmali.py:81-118).  The
doubly linked job chain is represented by the list of jobs in creation
order: element `i`'s `previous` is element `i-1` (set at construction) and
its `next` is element `i+1` (set by `previous.next = self`).  `write_all`
called on the last job first writes the whole `previous` chain, then the
job itself, so it emits the files in list order.  `markdownify` is an
opaque parameter `md`. -/

/-- `name.replace(' ', '%20')`. -/
def urlEncodeSpaces (s : String) : String :=
  String.mk (pyReplaceChar ' ' ['%', '2', '0'] s.data)

/-- Python `Path.name`: the component after the final slash. -/
def pathName (p : String) : String := String.mk ((splitOnChar '/' p.data).getLastD [])

/-- Python `Path.stem`: the name without its final extension.  (The names
this program builds are dot-free before their `.md` suffix, since
`sanitize_file_name` deletes every `'.'`.) -/
def pathStem (p : String) : String :=
  let parts := splitOnChar '.' (pathName p).data
  if parts.length ≤ 1 then pathName p else String.mk (joinWithChar '.' parts.dropLast)

/-- The job's `markdown` field: `markdownify.markdownify(html)` followed by
the doubled-domain hack replace (brahmali.py:86-89). -/
def jobMarkdown (md : String → String) (j : FileJob) : String :=
  strReplace (md j.html) "https://suttacentral.nethttps://suttacentral.net"
    "https://suttacentral.net"

/-- The `previous_link` string of `FileWriteJob.write`. -/
def previousLink : Option FileJob → String
  | none => ""
  | some pj =>
    "\n\nPrevious: [" ++ pathStem pj.path ++ "](./" ++ urlEncodeSpaces (pathName pj.path) ++ ")"

/-- The `next_link` string of `FileWriteJob.write`. -/
def nextSectionLink : Option FileJob → String
  | none => ""
  | some nj =>
    "## Next section: [" ++ pathStem nj.path ++ "](./" ++ urlEncodeSpaces (pathName nj.path) ++ ")"

/-- The file text `FileWriteJob.write` produces, given the neighbours. -/
def renderJob (md : String → String) (prev next : Option FileJob) (j : FileJob) : String :=
  "## By Ajahn Brahmali\n\nSource: <" ++ j.url ++ ">" ++ previousLink prev ++
    "\n\n" ++ jobMarkdown md j ++ "\n\n" ++ nextSectionLink next ++ "\n  "

/-- The writes `write_all` performs from a given position: each job's file
with its neighbours' links, in chain order. -/
def writeAllFrom (md : String → String) : Option FileJob → List FileJob → List (String × String)
  | _, [] => []
  | prev, j :: rest => (j.path, renderJob md prev rest.head? j) :: writeAllFrom md (some j) rest

/-- `write_all` on the last job of the chain `chain` (in creation order):
the list of `(path, text)` writes it performs. -/
def write_all (md : String → String) (chain : List FileJob) : List (String × String) :=
  writeAllFrom md none chain

/-! Model of `ImportGlossary.generate_files` (brahmali.py:167-220) and the
`PALI_ROOT_TO_GLOSSARY_ITEM` accumulation.  The Python dict is an
association log where the most recent write is found first; `pali_stem`,
`markdownify` and the regex word-character table of `re.split(r'\W+', ...)`
are opaque parameters (`paliStem`, `md`, `wc`).  The article is flattened
to the sibling list containing the subheadings. -/

/-- Python `str.strip()` on `String`. -/
def pyStripStr (s : String) : String := String.mk (pyStrip s.data)

/-- Python dict assignment `m[k] = v`. -/
def dictSet (m : List (String × String)) (k v : String) : List (String × String) :=
  (k, v) :: m

/-- Python dict lookup: the most recent write wins. -/
def dictGet (m : List (String × String)) (k : String) : Option String :=
  (m.find? (fun kv => kv.1 == k)).map (fun kv => kv.2)

/-- Embedding of `OTHER_WORD_FORMS` (brahmali.py:162-165). -/
def OTHER_WORD_FORMS : List (String × List String) :=
  [("vibbham", ["vibbhant"]), ("dūs", ["dūsent", "dūsess", "dūsessant"])]

/-- `s in OTHER_WORD_FORMS` / `OTHER_WORD_FORMS[s]`. -/
def otherForms (s : String) : Option (List String) :=
  (OTHER_WORD_FORMS.find? (fun kv => kv.1 == s)).map (fun kv => kv.2)

/-- The dict updates of brahmali.py:206-211 for the words `ws`: each word's
stem maps to `curFile`, and so does every alternate form listed for it. -/
def addWordMappings (paliStem : String → String) (curFile : String) :
    List String → List (String × String) → List (String × String)
  | [], gm => gm
  | w :: ws, gm =>
    let s := paliStem w
    let gm1 := dictSet gm s curFile
    let gm2 := match otherForms s with
      | none => gm1
      | some forms => forms.foldl (fun acc a => dictSet acc a curFile) gm1
    addWordMappings paliStem curFile ws gm2

mutual

/-- Model of `re.split(r'\W+', s)` on character lists, parameterized by the
word-character predicate: `splitNWAux` is scanning a word (collected in
`acc`), `splitNWSep` is inside a separator run. -/
def splitNWAux (wc : Char → Bool) : List Char → List Char → List (List Char)
  | [], acc => [acc.reverse]
  | c :: rest, acc =>
    if wc c then splitNWAux wc rest (c :: acc)
    else acc.reverse :: splitNWSep wc rest

/-- Companion of `splitNWAux`, scanning a separator run. -/
def splitNWSep (wc : Char → Bool) : List Char → List (List Char)
  | [] => [[]]
  | c :: rest => if wc c then splitNWAux wc rest [c] else splitNWSep wc rest

end

/-- `re.split(r'\W+', s)` on strings. -/
def pySplitWords (wc : Char → Bool) (s : String) : List String :=
  (splitNWAux wc s.data []).map String.mk

/-- `'“' in s`. -/
def containsQuote (s : String) : Bool := s.data.contains '“'

/-- The sibling run a glossary entry accumulates: until the next split tag
or any `section` (brahmali.py:197-201). -/
def glossRegion (split : String) (rest : List Elem) : List Elem :=
  rest.takeWhile (fun x => !(isSplitTag split x || x.name == some "section"))

/-- `" ".join(pali_term)` over the `<i lang='pli'>` texts. -/
def glossPaliTermRaw (e : Elem) : String := String.intercalate " " e.paliITexts

/-- `str(gloss_elem)`; Python `str(None)` is `"None"`. -/
def glossGlossRaw (e : Elem) : String := e.afterLastI.getD "None"

/-- The Pali term after the curly-quote fixup (brahmali.py:189-191). -/
def glossPaliTerm (e : Elem) : String :=
  let t := glossPaliTermRaw e
  if containsQuote t then pyStripStr (String.mk ((splitOnChar ':' t.data).headD [])) else t

/-- The gloss after the curly-quote fixup. -/
def glossGloss (e : Elem) : String :=
  if containsQuote (glossPaliTermRaw e) then "“" ++ glossGlossRaw e else glossGlossRaw e

/-- The entry's file name (brahmali.py:192-195). -/
def glossFileName (e : Elem) : String :=
  if containsQuote (glossGloss e) then
    sanitize_file_name (glossPaliTerm e ++ " means " ++ glossGloss e) ++ ".md"
  else
    sanitize_file_name (glossPaliTerm e) ++ ".md"

/-- The accumulated HTML content of the entry's region. -/
def glossContent (split : String) (rest : List Elem) : String :=
  String.join ((glossRegion split rest).map Elem.html)

/-- The text written for a glossary entry (brahmali.py:212-220). -/
def glossFileText (md : String → String) (url pid content : String) : String :=
  let c := md content
  let c := if c.startsWith ":   " then c.drop 4 else c
  "## By Ajahn Brahmali\n\nSource: <" ++ url ++ "#" ++ pid ++ ">\n\n" ++ c ++ "\n"

/-- The glossary map together with the files written. -/
structure GlossResult where
  glossMap : List (String × String)
  files : List (String × String)
deriving Repr, DecidableEq

/-- Embedding of the entry loop of `ImportGlossary.generate_files`
(brahmali.py:174-220): scan the article siblings; each split-tag subheading
is one entry.  `MIN_CONTENT_LENGTH` is the literal `100` of
`ImportGlossary.__init__`. -/
def glossWalk (md paliStem : String → String) (wc : Char → Bool)
    (split folder url : String) (linkto : Bool) :
    List Elem → List (String × String) → List (String × String) → Except String GlossResult
  | [], gm, files => .ok ⟨gm, files⟩
  | e :: rest, gm, files =>
    if isSplitTag split e then
      match e.id with
      | none => .error "KeyError: id"
      | some pid =>
        if pid = "" then .error "AssertionError: Expected subhead to have an id"
        else if e.paliITexts.isEmpty then .error "AssertionError: Expected a pali term"
        else if !(glossRegion split rest).all isContentTag then
          .error "AssertionError: Unexpected tag"
        else if (glossContent split rest).length < 100 then
          glossWalk md paliStem wc split folder url linkto rest gm files
        else
          let curFile := joinPath folder (glossFileName e)
          let gm' := if linkto then
              addWordMappings paliStem curFile (pySplitWords wc (glossPaliTerm e)) gm
            else gm
          glossWalk md paliStem wc split folder url linkto rest gm'
            (files ++ [(curFile, glossFileText md url pid (glossContent split rest))])
    else glossWalk md paliStem wc split folder url linkto rest gm files

/-! Model of the page configuration table and `main` (brahmali.py:222-301). -/

/-- The three configuration shapes of the script. -/
inductive EssayConfig where
  | skipEssay : EssayConfig
  | importEssay (folder split : String) : EssayConfig
  | importGlossary (folder split : String) (linkto : Bool) : EssayConfig
deriving Repr, DecidableEq

/-- Embedding of `ESSAY_CONFIGS` (brahmali.py:222-241), defaults expanded:
`ImportEssay` splits on `"h2"` unless overridden, `ImportGlossary` uses
folder `'Glosses'`, split `"h3"` and `linkto=False` unless overridden. -/
def ESSAY_CONFIGS : List (String × EssayConfig) :=
  [("./matter/foreword.html", .skipEssay),
   ("./matter/preface.html", .skipEssay),
   ("./matter/general-introduction.html", .importEssay "General" "h2"),
   ("./matter/bu-vb-1-introduction.html", .importEssay "The Bhikkhu Vibhanga" "h2"),
   ("./matter/bu-vb-2-introduction.html", .importEssay "The Bhikkhu Vibhanga" "h2"),
   ("./matter/bi-vb-introduction.html", .importEssay "The Bhikkhuni Vibhanga" "h2"),
   ("./matter/kd-1-introduction.html", .importEssay "The Khandhakas" "h2"),
   ("./matter/kd-2-introduction.html", .importEssay "The Khandhakas" "h2"),
   ("./matter/pvr-introduction.html", .importEssay "The Parivara" "h2"),
   ("./matter/bibliography.html", .skipEssay),
   ("./matter/abbreviations.html", .skipEssay),
   ("./matter/appendix-glossary.html", .skipEssay),
   ("./matter/appendix-terms.html", .importGlossary "Glosses" "h3" true),
   ("./matter/appendix-sectional.html", .importGlossary "Glosses" "h3" false),
   ("./matter/appendix-furniture.html", .importGlossary "Furniture" "dt" false),
   ("./matter/appendix-medical.html", .importGlossary "Medical Terms" "dt" false),
   ("./matter/appendix-plants.html", .skipEssay),
   ("./matter/bi-vb-appendix-rules.html", .importEssay "Specific Bhikkhuni Rules" "h3")]

/-- `path in ESSAY_CONFIGS` / `ESSAY_CONFIGS[path]`. -/
def lookupConfig (path : String) : Option EssayConfig :=
  (ESSAY_CONFIGS.find? (fun kv => kv.1 == path)).map (fun kv => kv.2)

/-- `BaseEssayConfig.set_url` (brahmali.py:63-67). -/
def configUrl (relpath : String) : String :=
  strReplace (strReplace relpath "./matter/"
    "https://suttacentral.net/edition/pli-tv-vi/en/brahmali/") ".html" ""
    ++ "?lang=en"

/-- The parse-level content of one fetched page: the essay view (h1, nav and
sibling chains) and the glossary view (the article's sibling list). -/
structure PageData where
  essay : EssayPage := {}
  article : List Elem := []
deriving Repr, DecidableEq

/-- One `ESSAY_CONFIGS[path].generate_files(vinaya_essay)` call: the files
it writes and the glossary map it leaves behind. -/
def runConfig (md paliStem : String → String) (wc : Char → Bool)
    (cfg : EssayConfig) (outputDir url : String) (page : PageData)
    (gm : List (String × String)) :
    Except String (List (String × String) × List (String × String)) :=
  match cfg with
  | .skipEssay => .ok ([], gm)
  | .importEssay folder split =>
    match generate_files_essay split (joinPath outputDir folder) url page.essay with
    | .error e => .error e
    | .ok jobs => .ok (write_all md jobs, gm)
  | .importGlossary folder split linkto =>
    match glossWalk md paliStem wc split (joinPath outputDir folder) url linkto
        page.article gm [] with
    | .error e => .error e
    | .ok res => .ok (res.files, res.glossMap)

/-- The exceptions `main` can propagate from its page loop. -/
inductive MainExc where
  | noConfig (path : String)
  | genFailed (path : String) (exc : String)
deriving Repr, DecidableEq

/-- Observable state of `main`'s page loop: the files written per processed
page, the error lines printed, the glossary map, and the exception that
escaped, if any. -/
structure MainState where
  written : List (String × List (String × String))
  printed : List String
  glossMap : List (String × String)
  err : Option MainExc
deriving Repr, DecidableEq

/-- Embedding of the page loop of `main` (brahmali.py:266-279): unknown
paths raise `Exception(f"No config for {path}")`, `SkipEssay` pages are
skipped, a failing `generate_files` prints
`f"ERROR Failed to generate {path}!"` and re-raises, ending the loop. -/
def mainLoop (md paliStem : String → String) (wc : Char → Bool) (outputDir : String) :
    List (String × PageData) → List (String × String) → MainState
  | [], gm => ⟨[], [], gm, none⟩
  | (path, page) :: rest, gm =>
    match lookupConfig path with
    | none => ⟨[], [], gm, some (.noConfig path)⟩
    | some cfg =>
      if cfg = .skipEssay then mainLoop md paliStem wc outputDir rest gm
      else
        match runConfig md paliStem wc cfg outputDir (configUrl path) page gm with
        | .error e =>
          ⟨[], ["ERROR Failed to generate " ++ path ++ "!"], gm, some (.genFailed path e)⟩
        | .ok (files, gm') =>
          let st := mainLoop md paliStem wc outputDir rest gm'
          ⟨(path, files) :: st.written, st.printed, st.glossMap, st.err⟩

/-- Embedding of `main` (brahmali.py:260-288): run the page loop, then, when
no exception escaped, write the glossary map to
`ROOT_FOLDER.joinpath('glossary.json')` (serialization abstracted: the pair
carries the map itself). -/
def mainRun (md paliStem : String → String) (wc : Char → Bool)
    (rootFolder outputDir : String) (pages : List (String × PageData)) :
    MainState × Option (String × List (String × String)) :=
  let st := mainLoop md paliStem wc outputDir pages []
  match st.err with
  | some _ => (st, none)
  | none => (st, some (joinPath rootFolder "glossary.json", st.glossMap))

/-- The `argparse` wiring (brahmali.py:290-301): one optional positional
`output_dir`, defaulting to `./Ajahn Brahmali`. -/
def cliOutputDir (args : List String) : String := args.headD "./Ajahn Brahmali"

/-- Processability of one sibling in the essay walk, as amended for claim
C5: a split tag carrying a non-empty id, or a content tag. -/
def goodElem (split : String) (e : Elem) : Prop :=
  (isSplitTag split e = true ∧ ∃ i, e.id = some i ∧ i ≠ "") ∨
  (isSplitTag split e = false ∧ isContentTag e = true)

/-! Concrete HTML nodes and pages used to instantiate the theorems. -/

def elemP (h : String) : Elem := { name := some "p", html := h }

def elemH2 (i t : String) : Elem := { name := some "h2", id := some i, text := t }

def elemH2NoId : Elem := { name := some "h2", text := "S" }

def elemDiv : Elem := { name := some "div" }

def elemEndnotes : Elem := { name := some "section", role := some "doc-endnotes" }

def essaySibs : List Elem :=
  [elemP "A", elemH2 "x" "S1", elemP "B", elemH2 "y" "S2", elemP "C", elemEndnotes]

def essayPageNoNav : EssayPage :=
  { h1count := 1, h1title := "T", navCount := 0, afterH1 := essaySibs }

def essayPageNav : EssayPage :=
  { h1count := 1, h1title := "T", navCount := 1, afterNav := essaySibs }

def glossHead (i term : String) : Elem :=
  { name := some "h3", id := some i, paliITexts := [term], afterLastI := some "g" }

def longP : Elem := elemP (String.mk (List.replicate 100 'z'))

/-- Sequential composition of two page-loop runs (the second starting from
the first's glossary map), used to state how `mainLoop` splits over `++`. -/
def stAppend (st1 st2 : MainState) : MainState :=
  ⟨st1.written ++ st2.written, st1.printed ++ st2.printed, st2.glossMap, st2.err⟩

def badEssayPageData : PageData := { essay := { h1count := 2 } }

def pagesNav : List (String × PageData) :=
  [("./matter/general-introduction.html", { essay := essayPageNav })]

/-! Lemmas about `sanitize_file_name`, for claim C2. -/

theorem pyReplaceChar_append (a : Char) (b l₁ l₂ : List Char) :
    pyReplaceChar a b (l₁ ++ l₂) = pyReplaceChar a b l₁ ++ pyReplaceChar a b l₂ := by
  simp [pyReplaceChar]

theorem replaceAll_append (l₁ l₂ : List Char) :
    replaceAll (l₁ ++ l₂) = replaceAll l₁ ++ replaceAll l₂ := by
  simp [replaceAll, pyReplaceChar_append]

theorem replaceAll_singleton (c : Char) : replaceAll [c] = specCharMap c := by
  by_cases h0 : c = ' '
  · subst h0; rfl
  by_cases h1 : c = '–'
  · subst h1; rfl
  by_cases h2 : c = '—'
  · subst h2; rfl
  by_cases h3 : c = ':'
  · subst h3; rfl
  by_cases h4 : c = '.'
  · subst h4; rfl
  by_cases h5 : c = ','
  · subst h5; rfl
  by_cases h6 : c = '/'
  · subst h6; rfl
  by_cases h7 : c = '"'
  · subst h7; rfl
  simp [replaceAll, pyReplaceChar, specCharMap, h0, h1, h2, h3, h4, h5, h6, h7]

theorem replaceAll_eq_flatMap (l : List Char) :
    replaceAll l = l.flatMap specCharMap := by
  induction l with
  | nil => rfl
  | cons c rest ih =>
    have h : c :: rest = [c] ++ rest := rfl
    rw [h, replaceAll_append, ih, replaceAll_singleton]
    simp

theorem mem_collapseWSAux {c : Char} (p : Bool) (l : List Char)
    (h : c ∈ collapseWSAux p l) : c = ' ' ∨ c ∈ l := by
  induction l generalizing p with
  | nil => simp [collapseWSAux] at h
  | cons x rest ih =>
    simp only [collapseWSAux] at h
    by_cases hx : pyIsSpace x
    · rw [if_pos hx] at h
      by_cases hp : p = true
      · rw [if_pos hp] at h
        rcases ih _ h with h' | h'
        · exact Or.inl h'
        · exact Or.inr (List.mem_cons_of_mem _ h')
      · rw [if_neg hp] at h
        rcases List.mem_cons.mp h with h' | h'
        · exact Or.inl h'
        · rcases ih _ h' with h'' | h''
          · exact Or.inl h''
          · exact Or.inr (List.mem_cons_of_mem _ h'')
    · rw [if_neg hx] at h
      rcases List.mem_cons.mp h with h' | h'
      · exact Or.inr (h' ▸ List.mem_cons_self x rest)
      · rcases ih _ h' with h'' | h''
        · exact Or.inl h''
        · exact Or.inr (List.mem_cons_of_mem _ h'')

theorem mem_pyStrip {c : Char} {l : List Char} (h : c ∈ pyStrip l) : c ∈ l := by
  have h1 : pyStrip l <+: l.dropWhile pyIsSpace := List.rdropWhile_prefix _ _
  have h2 : l.dropWhile pyIsSpace <:+ l := List.dropWhile_suffix _
  exact h2.subset (h1.subset h)

theorem pyStrip_isInfixOf (l : List Char) : pyStrip l <:+: l := by
  have h1 : pyStrip l <+: l.dropWhile pyIsSpace := List.rdropWhile_prefix _ _
  have h2 : l.dropWhile pyIsSpace <:+ l := List.dropWhile_suffix _
  exact h1.isInfix.trans h2.isInfix

theorem mem_specCharMap {d c : Char} (h : d ∈ specCharMap c) :
    forbiddenChar d = false := by
  unfold specCharMap at h
  split_ifs at h with h1 h2 h3 h4 h5
  · rcases List.mem_singleton.mp h with rfl; decide
  · rcases List.mem_singleton.mp h with rfl; decide
  · simp at h
  · rcases List.mem_singleton.mp h with rfl; decide
  · rcases List.mem_singleton.mp h with rfl; decide
  · rcases List.mem_singleton.mp h with rfl
    push_neg at h3
    simp [forbiddenChar, h3.1, h3.2.1, h3.2.2, h4, h5]

theorem head?_collapseWSAux_true (l : List Char) (y : Char)
    (h : (collapseWSAux true l).head? = some y) : pyIsSpace y = false := by
  induction l with
  | nil => simp [collapseWSAux] at h
  | cons x rest ih =>
    simp only [collapseWSAux] at h
    by_cases hx : pyIsSpace x
    · rw [if_pos hx, if_pos trivial] at h
      exact ih h
    · rw [if_neg hx, List.head?_cons] at h
      injection h with h
      subst h
      exact Bool.not_eq_true _ ▸ hx

theorem chain'_collapseWSAux (p : Bool) (l : List Char) :
    List.Chain' (fun a b => ¬(pyIsSpace a = true ∧ pyIsSpace b = true))
      (collapseWSAux p l) := by
  induction l generalizing p with
  | nil => simp [collapseWSAux]
  | cons x rest ih =>
    simp only [collapseWSAux]
    by_cases hx : pyIsSpace x
    · rw [if_pos hx]
      by_cases hp : p = true
      · rw [if_pos hp]; exact ih true
      · rw [if_neg hp]
        rw [List.chain'_cons']
        refine ⟨?_, ih true⟩
        intro y hy
        have hns := head?_collapseWSAux_true rest y hy
        intro hcon
        rw [hns] at hcon
        exact Bool.false_ne_true hcon.2
    · rw [if_neg hx]
      rw [List.chain'_cons']
      refine ⟨?_, ih false⟩
      intro y _
      intro hcon
      exact hx hcon.1

theorem head?_dropWhile_pyIsSpace (l : List Char) (y : Char)
    (h : (l.dropWhile pyIsSpace).head? = some y) : pyIsSpace y = false := by
  induction l with
  | nil => simp at h
  | cons x rest ih =>
    by_cases hx : pyIsSpace x
    · rw [List.dropWhile_cons_of_pos hx] at h
      exact ih h
    · rw [List.dropWhile_cons_of_neg hx, List.head?_cons] at h
      injection h with h
      subst h
      exact Bool.not_eq_true _ ▸ hx

theorem head?_pyStrip (l : List Char) (y : Char)
    (h : (pyStrip l).head? = some y) : pyIsSpace y = false := by
  have hpre : pyStrip l <+: l.dropWhile pyIsSpace := List.rdropWhile_prefix _ _
  obtain ⟨t, ht⟩ := hpre
  cases hps : pyStrip l with
  | nil => rw [hps] at h; simp at h
  | cons z zs =>
    rw [hps] at h
    apply head?_dropWhile_pyIsSpace l y
    rw [← ht, hps, List.cons_append, List.head?_cons]
    rw [List.head?_cons] at h
    exact h

theorem getLast?_pyStrip (l : List Char) (y : Char)
    (h : (pyStrip l).getLast? = some y) : pyIsSpace y = false := by
  unfold pyStrip List.rdropWhile at h
  rw [List.getLast?_reverse] at h
  exact head?_dropWhile_pyIsSpace _ y h

theorem chain'_pyStrip_collapse (m : List Char) :
    List.Chain' noTwoWS (pyStrip (collapseWS m)) := by
  have h1 : List.Chain' noTwoWS (collapseWS m) := chain'_collapseWSAux false m
  have h2 : pyStrip (collapseWS m) <:+: collapseWS m := pyStrip_isInfixOf (collapseWS m)
  exact List.Chain'.infix h1 h2

theorem sanitizeChars_eq (m : List Char) :
    sanitizeChars m = pyStrip (collapseWS (m.flatMap specCharMap)) := by
  unfold sanitizeChars
  rw [replaceAll_eq_flatMap]

theorem sanitizeChars_no_forbidden (m : List Char) :
    ((sanitizeChars m).all fun c => !forbiddenChar c) = true := by
  rw [List.all_eq_true]
  intro c hc
  have hc1 : c ∈ collapseWS (replaceAll m) := mem_pyStrip hc
  rcases mem_collapseWSAux false _ hc1 with h' | h'
  · subst h'; decide
  · rw [replaceAll_eq_flatMap] at h'
    rcases List.mem_flatMap.mp h' with ⟨d, _, hd2⟩
    have hf := mem_specCharMap hd2
    simp [hf]

seal replaceAll in
theorem chain'_sanitizeChars (m : List Char) :
    List.Chain' noTwoWS (sanitizeChars m) := by
  have hc : List.Chain' noTwoWS (pyStrip (collapseWS (replaceAll m))) :=
    chain'_pyStrip_collapse (replaceAll m)
  exact hc

theorem head?_sanitizeChars (m : List Char) :
    ((sanitizeChars m).head?.all fun c => !pyIsSpace c) = true := by
  unfold sanitizeChars
  cases hh : (pyStrip (collapseWS (replaceAll m))).head? with
  | none => rfl
  | some y =>
    have hy := head?_pyStrip _ y hh
    simp [hy]

theorem getLast?_sanitizeChars (m : List Char) :
    ((sanitizeChars m).getLast?.all fun c => !pyIsSpace c) = true := by
  unfold sanitizeChars
  cases hh : (pyStrip (collapseWS (replaceAll m))).getLast? with
  | none => rfl
  | some y =>
    have hy := getLast?_pyStrip _ y hh
    simp [hy]

seal replaceAll in
/-- Claim C2: `sanitize_file_name` performs exactly the claimed character
replacements (stated as equality with the single-pass spec rewriting
`specCharMap`, followed by whitespace collapsing and stripping), and its
result contains none of `':'`, `'.'`, `','`, `'/'`, `'"'`, contains no run
of two or more whitespace characters, and has no leading or trailing
whitespace. -/
theorem claim_C2_sanitize_file_name (s : String) :
    sanitize_file_name s = String.mk (pyStrip (collapseWS (s.data.flatMap specCharMap))) ∧
    ((sanitize_file_name s).data.all fun c => !forbiddenChar c) = true ∧
    List.Chain' noTwoWS (sanitize_file_name s).data ∧
    ((sanitize_file_name s).data.head?.all fun c => !pyIsSpace c) = true ∧
    ((sanitize_file_name s).data.getLast?.all fun c => !pyIsSpace c) = true := by
  have hdata : (sanitize_file_name s).data = sanitizeChars s.data := by
    simp [sanitize_file_name]
  refine ⟨?_, ?_, ?_, ?_, ?_⟩
  · show String.mk (sanitizeChars s.data) = _
    exact congrArg String.mk (sanitizeChars_eq s.data)
  · rw [hdata]
    exact sanitizeChars_no_forbidden s.data
  · rw [hdata]
    exact chain'_sanitizeChars s.data
  · rw [hdata]
    exact head?_sanitizeChars s.data
  · rw [hdata]
    exact getLast?_sanitizeChars s.data

/-! Lemmas about the essay walk, for claims C1 and C5. -/

theorem isSplitTag_name {split : String} {e : Elem} (h : isSplitTag split e = true) :
    e.name = some split := by
  unfold isSplitTag at h
  simpa using h

theorem isEndnotesSection_of_split {split : String} {e : Elem} (hs : split ≠ "section")
    (h : isSplitTag split e = true) : isEndnotesSection e = false := by
  have hn := isSplitTag_name h
  unfold isEndnotesSection
  rw [hn]
  simp
  intro hcon
  exact absurd hcon hs

theorem isEndnotesSection_of_content {e : Elem} (h : isContentTag e = true) :
    isEndnotesSection e = false := by
  unfold isContentTag at h
  unfold isEndnotesSection
  cases hq : (e.name == some "section") with
  | false => simp
  | true =>
    have hn : e.name = some "section" := by simpa using hq
    rw [hn] at h
    exact absurd h (by decide)

theorem isContentTag_of_endnotes {e : Elem} (h : isEndnotesSection e = true) :
    isContentTag e = false := by
  unfold isEndnotesSection at h
  have hn : e.name = some "section" := by
    have h1 := (Bool.and_eq_true _ _).mp h
    simpa using h1.1
  unfold isContentTag
  rw [hn]
  decide

theorem splitSegsAux_eq (p : Elem → Bool) (w : List Elem) : ∀ (h : Elem) (acc : List Elem),
    splitSegsAux p w h acc =
      (h, acc.reverse ++ w.takeWhile (fun x => !p x)) ::
        splitSegs p (w.dropWhile (fun x => !p x)) := by
  induction w with
  | nil => intro h acc; simp [splitSegsAux, splitSegs]
  | cons e rest ih =>
    intro h acc
    cases hp : p e with
    | true =>
      rw [List.takeWhile_cons_of_neg (by simp [hp]), List.dropWhile_cons_of_neg (by simp [hp])]
      simp only [splitSegsAux, splitSegs]
      rw [if_pos hp, if_pos hp]
      simp
    | false =>
      rw [List.takeWhile_cons_of_pos (by simp [hp]), List.dropWhile_cons_of_pos (by simp [hp])]
      simp only [splitSegsAux]
      rw [if_neg (by simp [hp]), ih h (e :: acc)]
      simp

theorem splitSegs_dropWhile (p : Elem → Bool) (w : List Elem) :
    splitSegs p (w.dropWhile (fun x => !p x)) = splitSegs p w := by
  induction w with
  | nil => rfl
  | cons e rest ih =>
    cases hp : p e with
    | true =>
      rw [List.dropWhile_cons_of_neg (by simp [hp])]
    | false =>
      rw [List.dropWhile_cons_of_pos (by simp [hp]), ih]
      simp only [splitSegs]
      rw [if_neg (by simp [hp])]

theorem splitSegs_cons_pos {p : Elem → Bool} {e : Elem} (l : List Elem) (hp : p e = true) :
    splitSegs p (e :: l) = splitSegsAux p l e [] := by
  simp only [splitSegs]
  rw [if_pos hp]

theorem splitSegs_cons_neg {p : Elem → Bool} {e : Elem} (l : List Elem) (hp : p e = false) :
    splitSegs p (e :: l) = splitSegs p l := by
  simp only [splitSegs]
  rw [if_neg (by simp [hp])]

theorem pendingSpec_nil (split folder baseUrl cf hc cu : String) :
    pendingSpec split folder baseUrl [] cf hc cu = [] := rfl

theorem pendingSpec_endnotes (split folder baseUrl : String) (e : Elem) (rest : List Elem)
    (cf hc cu : String) (hend : isEndnotesSection e = true) :
    pendingSpec split folder baseUrl (e :: rest) cf hc cu = [] := by
  unfold pendingSpec
  rw [List.takeWhile_cons_of_neg (by simp [hend])]
  rfl

theorem pendingSpec_content (split folder baseUrl : String) (e : Elem) (rest : List Elem)
    (cf hc cu : String) (hsp : isSplitTag split e = false) (hct : isContentTag e = true) :
    pendingSpec split folder baseUrl (e :: rest) cf hc cu =
      pendingSpec split folder baseUrl rest cf (hc ++ e.html) cu := by
  have hend := isEndnotesSection_of_content hct
  unfold pendingSpec
  rw [List.takeWhile_cons_of_pos (by simp [hend])]
  rw [splitSegs_cons_neg _ hsp]
  rw [List.takeWhile_cons_of_pos (by simp [hsp])]
  simp only [contentConcat]
  rw [if_pos hct, ← String.append_assoc]

theorem pendingSpec_split (split folder baseUrl : String) (hs : split ≠ "section")
    (e : Elem) (rest : List Elem) (cf hc cu i : String)
    (hsp : isSplitTag split e = true) (hid : e.id = some i) :
    pendingSpec split folder baseUrl (e :: rest) cf hc cu =
      ⟨cf, hc, cu⟩ ::
        pendingSpec split folder baseUrl rest
          (essayFileName folder ((titleOverride (baseUrl ++ "#" ++ i)).getD e.text))
          "" (baseUrl ++ "#" ++ i) := by
  have hend := isEndnotesSection_of_split hs hsp
  unfold pendingSpec
  rw [List.takeWhile_cons_of_pos (by simp [hend])]
  rw [splitSegs_cons_pos _ hsp]
  rw [splitSegsAux_eq, splitSegs_dropWhile]
  rw [List.takeWhile_cons_of_neg (by simp [hsp])]
  simp only [List.isEmpty_cons, List.reverse_nil, List.nil_append, contentConcat,
    Bool.false_eq_true, if_false]
  rw [String.append_empty]
  cases hS : splitSegs (isSplitTag split) (rest.takeWhile fun x => !isEndnotesSection x) with
  | nil =>
    simp [segJobs]
  | cons s ss =>
    simp only [List.isEmpty_cons, Bool.false_eq_true, if_false, List.dropLast_cons₂]
    simp only [segJobs, hid, Option.getD_some]
    rw [String.empty_append]

theorem essayWalk_ok_pendingSpec (split folder baseUrl : String) (hs : split ≠ "section") :
    ∀ (elems : List Elem) (cf hc cu : String) (jobs res : List FileJob),
      essayWalk split folder baseUrl elems cf hc cu jobs = .ok res →
      res = jobs ++ pendingSpec split folder baseUrl elems cf hc cu := by
  intro elems
  induction elems with
  | nil =>
    intro cf hc cu jobs res h
    simp only [essayWalk] at h
    injection h with h
    rw [pendingSpec_nil, List.append_nil]
    exact h.symm
  | cons e rest ih =>
    intro cf hc cu jobs res h
    cases hsp : isSplitTag split e with
    | true =>
      cases hid : e.id with
      | none => simp [essayWalk, hsp, hid] at h
      | some i =>
        by_cases hie : i = ""
        · simp [essayWalk, hsp, hid, hie] at h
        · simp only [essayWalk] at h
          rw [hsp] at h
          simp only [if_true] at h
          rw [hid] at h
          simp only [hie, if_false] at h
          have h2 := ih _ _ _ _ _ h
          rw [h2, pendingSpec_split split folder baseUrl hs e rest cf hc cu i hsp hid]
          simp
    | false =>
      cases hct : isContentTag e with
      | true =>
        simp only [essayWalk] at h
        rw [hsp, hct] at h
        simp only [Bool.false_eq_true, if_false, if_true] at h
        have h2 := ih _ _ _ _ _ h
        rw [h2, pendingSpec_content split folder baseUrl e rest cf hc cu hsp hct]
      | false =>
        cases hsec : (e.name == some "section") with
        | false => simp [essayWalk, hsp, hct, hsec] at h
        | true =>
          cases hrole : e.role with
          | none => simp [essayWalk, hsp, hct, hsec, hrole] at h
          | some r =>
            by_cases hr : r = "doc-endnotes"
            · have hend : isEndnotesSection e = true := by
                unfold isEndnotesSection
                rw [hsec, hrole, hr]
                simp
              simp [essayWalk, hsp, hct, hsec, hrole, hr] at h
              rw [pendingSpec_endnotes split folder baseUrl e rest cf hc cu hend,
                List.append_nil]
              exact h.symm
            · simp [essayWalk, hsp, hct, hsec, hrole, hr] at h

/-- Claim C1 (amended): whenever `ImportEssay.generate_files` succeeds, the
files it queues are exactly the heading-boundary bucketing of the walked
siblings — the siblings after the `nav`, or, in the no-`nav` case, the
siblings after the first sibling following the `h1` (the loop advances past
one element before processing): one file is started at each split-tag
sibling, the content siblings between two consecutive split tags all go to
the file of the preceding heading, and the material before the first split
tag goes to the file named after the `h1` title. -/
theorem claim_C1_essay_sections (split folder baseUrl : String) (page : EssayPage)
    (jobs : List FileJob) (hs : split ≠ "section")
    (hok : generate_files_essay split folder baseUrl page = .ok jobs) :
    jobs = sectionsSpec split folder baseUrl page.h1title
      (if page.navCount = 1 then page.afterNav else page.afterH1.drop 1) := by
  simp only [generate_files_essay] at hok
  by_cases h1 : page.h1count ≠ 1
  · rw [if_pos h1] at hok
    exact absurd hok (by simp)
  · rw [if_neg h1] at hok
    by_cases h2 : page.navCount ≥ 2
    · rw [if_pos h2] at hok
      exact absurd hok (by simp)
    · rw [if_neg h2] at hok
      cases hw : essayWalk split folder baseUrl
          (if page.navCount = 1 then page.afterNav else page.afterH1.drop 1)
          (essayFileName folder page.h1title) "" baseUrl [] with
      | error e =>
        rw [hw] at hok
        exact absurd hok (by simp)
      | ok j =>
        rw [hw] at hok
        by_cases hj : j.isEmpty
        · simp [hj] at hok
        · simp only [hj, Bool.false_eq_true, if_false] at hok
          injection hok with hok
          subst hok
          have hps := essayWalk_ok_pendingSpec split folder baseUrl hs _ _ _ _ _ _ hw
          simpa [sectionsSpec] using hps

/-- Claim C1 counterexample: on a page with no `nav` whose first sibling
after the `h1` is a content paragraph, the code drops that paragraph (the
walk starts one element late), so the jobs differ from the claimed
bucketing of "the siblings after the h1". -/
theorem claim_C1_counterexample :
    generate_files_essay "h2" "F" "u" essayPageNoNav =
      .ok [⟨"F/T.md", "", "u"⟩, ⟨"F/S1.md", "B", "u#x"⟩] ∧
    sectionsSpec "h2" "F" "u" "T" essayPageNoNav.afterH1 =
      [⟨"F/T.md", "A", "u"⟩, ⟨"F/S1.md", "B", "u#x"⟩] ∧
    ([⟨"F/T.md", "", "u"⟩, ⟨"F/S1.md", "B", "u#x"⟩] : List FileJob) ≠
      [⟨"F/T.md", "A", "u"⟩, ⟨"F/S1.md", "B", "u#x"⟩] := by
  refine ⟨rfl, rfl, ?_⟩
  decide

/-- Witness for claim C1: a page with a `nav`, where the amended theorem
computes the expected bucketing. -/
theorem claim_C1_essay_sections_witness :
    generate_files_essay "h2" "F" "u" essayPageNav =
      .ok [⟨"F/T.md", "A", "u"⟩, ⟨"F/S1.md", "B", "u#x"⟩] ∧
    ([⟨"F/T.md", "A", "u"⟩, ⟨"F/S1.md", "B", "u#x"⟩] : List FileJob) =
      sectionsSpec "h2" "F" "u" essayPageNav.h1title
        (if essayPageNav.navCount = 1 then essayPageNav.afterNav
          else essayPageNav.afterH1.drop 1) :=
  ⟨rfl, claim_C1_essay_sections "h2" "F" "u" essayPageNav _ (by decide) rfl⟩

/-! Step lemmas for the essay walk, for claim C5. -/

theorem essayWalk_cons_split (split folder baseUrl : String) (e : Elem) (rest' : List Elem)
    (cf hc cu i : String) (jobs : List FileJob)
    (hsp : isSplitTag split e = true) (hid : e.id = some i) (hine : i ≠ "") :
    essayWalk split folder baseUrl (e :: rest') cf hc cu jobs =
      essayWalk split folder baseUrl rest'
        (essayFileName folder ((titleOverride (baseUrl ++ "#" ++ i)).getD e.text))
        "" (baseUrl ++ "#" ++ i) (jobs ++ [⟨cf, hc, cu⟩]) := by
  simp only [essayWalk]
  rw [hsp]
  simp only [if_true]
  rw [hid]
  simp only [hine, if_false]

theorem essayWalk_cons_content (split folder baseUrl : String) (e : Elem) (rest' : List Elem)
    (cf hc cu : String) (jobs : List FileJob)
    (hsp : isSplitTag split e = false) (hct : isContentTag e = true) :
    essayWalk split folder baseUrl (e :: rest') cf hc cu jobs =
      essayWalk split folder baseUrl rest' cf (hc ++ e.html) cu jobs := by
  simp only [essayWalk]
  rw [hsp, hct]
  simp only [Bool.false_eq_true, if_false, if_true]

theorem isSplitTag_of_endnotes {split : String} {e : Elem} (hs : split ≠ "section")
    (hend : isEndnotesSection e = true) : isSplitTag split e = false := by
  unfold isEndnotesSection at hend
  have hn : e.name = some "section" := by
    have h1 := (Bool.and_eq_true _ _).mp hend
    simpa using h1.1
  unfold isSplitTag
  rw [hn]
  simp
  intro hcon
  exact absurd hcon.symm hs

theorem essayWalk_cons_endnotes (split folder baseUrl : String) (e : Elem) (rest' : List Elem)
    (cf hc cu : String) (jobs : List FileJob) (hs : split ≠ "section")
    (hend : isEndnotesSection e = true) :
    essayWalk split folder baseUrl (e :: rest') cf hc cu jobs = .ok jobs := by
  have hsp := isSplitTag_of_endnotes hs hend
  have hct := isContentTag_of_endnotes hend
  unfold isEndnotesSection at hend
  have h1 := (Bool.and_eq_true _ _).mp hend
  have hn : (e.name == some "section") = true := h1.1
  have hr : e.role = some "doc-endnotes" := by simpa using h1.2
  simp only [essayWalk]
  rw [hsp, hct, hn, hr]
  simp

theorem essayWalk_error_at_bad (split folder baseUrl : String) :
    ∀ (pre : List Elem) (bad : Elem) (rest : List Elem) (cf hc cu : String)
      (jobs : List FileJob),
      (∀ e ∈ pre, goodElem split e) →
      isSplitTag split bad = false → isContentTag bad = false →
      isEndnotesSection bad = false →
      ∃ msg, essayWalk split folder baseUrl (pre ++ bad :: rest) cf hc cu jobs = .error msg := by
  intro pre
  induction pre with
  | nil =>
    intro bad rest cf hc cu jobs _ hsp hct hend
    rw [List.nil_append]
    cases hsec : (bad.name == some "section") with
    | false =>
      refine ⟨"Exception: Unexpected tag", ?_⟩
      simp [essayWalk, hsp, hct, hsec]
    | true =>
      cases hrole : bad.role with
      | none =>
        refine ⟨"KeyError: role", ?_⟩
        simp [essayWalk, hsp, hct, hsec, hrole]
      | some r =>
        have hr : r ≠ "doc-endnotes" := by
          intro hcon
          unfold isEndnotesSection at hend
          rw [hrole, hcon] at hend
          rw [hsec] at hend
          simp at hend
        refine ⟨"Exception: Unexpected tag", ?_⟩
        simp [essayWalk, hsp, hct, hsec, hrole, hr]
  | cons g pre' ih =>
    intro bad rest cf hc cu jobs hgood hsp hct hend
    have hg := hgood g (List.mem_cons_self g pre')
    have hgood' : ∀ e ∈ pre', goodElem split e := fun e he => hgood e (List.mem_cons_of_mem _ he)
    rw [List.cons_append]
    rcases hg with ⟨hgs, i, hgi, hine⟩ | ⟨hgs, hgc⟩
    · obtain ⟨msg, hmsg⟩ := ih bad rest
        (essayFileName folder ((titleOverride (baseUrl ++ "#" ++ i)).getD g.text))
        "" (baseUrl ++ "#" ++ i) (jobs ++ [⟨cf, hc, cu⟩]) hgood' hsp hct hend
      exact ⟨msg, by
        rw [essayWalk_cons_split split folder baseUrl g _ cf hc cu i jobs hgs hgi hine]
        exact hmsg⟩
    · obtain ⟨msg, hmsg⟩ := ih bad rest cf (hc ++ g.html) cu jobs hgood' hsp hct hend
      exact ⟨msg, by
        rw [essayWalk_cons_content split folder baseUrl g _ cf hc cu jobs hgs hgc]
        exact hmsg⟩

theorem essayWalk_ok_of_good (split folder baseUrl : String) (hs : split ≠ "section") :
    ∀ (elems : List Elem) (cf hc cu : String) (jobs : List FileJob),
      (∀ e ∈ elems.takeWhile (fun x => !isEndnotesSection x), goodElem split e) →
      ∃ res, essayWalk split folder baseUrl elems cf hc cu jobs = .ok res := by
  intro elems
  induction elems with
  | nil => exact fun cf hc cu jobs _ => ⟨jobs, rfl⟩
  | cons e rest ih =>
    intro cf hc cu jobs hgood
    cases hend : isEndnotesSection e with
    | true =>
      exact ⟨jobs, essayWalk_cons_endnotes split folder baseUrl e rest cf hc cu jobs hs hend⟩
    | false =>
      have hge : goodElem split e := by
        apply hgood
        rw [List.takeWhile_cons_of_pos (by simp [hend])]
        exact List.mem_cons_self _ _
      have hgood' : ∀ x ∈ rest.takeWhile (fun x => !isEndnotesSection x), goodElem split x := by
        intro x hx
        apply hgood
        rw [List.takeWhile_cons_of_pos (by simp [hend])]
        exact List.mem_cons_of_mem _ hx
      rcases hge with ⟨hgs, i, hgi, hine⟩ | ⟨hgs, hgc⟩
      · obtain ⟨res, hres⟩ := ih
          (essayFileName folder ((titleOverride (baseUrl ++ "#" ++ i)).getD e.text))
          "" (baseUrl ++ "#" ++ i) (jobs ++ [⟨cf, hc, cu⟩]) hgood'
        exact ⟨res, by
          rw [essayWalk_cons_split split folder baseUrl e rest cf hc cu i jobs hgs hgi hine]
          exact hres⟩
      · obtain ⟨res, hres⟩ := ih cf (hc ++ e.html) cu jobs hgood'
        exact ⟨res, by
          rw [essayWalk_cons_content split folder baseUrl e rest cf hc cu jobs hgs hgc]
          exact hres⟩

/-- Claim C5 (amended): in the essay walk, reaching a sibling that is not
the split tag, not a content tag and not an endnotes section raises an
exception; conversely, when every sibling before the endnotes section is a
split tag with a non-empty id or a content tag (and the split tag is not
"section"), the whole walk completes without raising. -/
theorem claim_C5_walk_exceptions :
    (∀ (split folder baseUrl : String) (pre : List Elem) (bad : Elem) (rest : List Elem)
       (cf hc cu : String) (jobs : List FileJob),
       (∀ e ∈ pre, goodElem split e) →
       isSplitTag split bad = false → isContentTag bad = false →
       isEndnotesSection bad = false →
       ∃ msg, essayWalk split folder baseUrl (pre ++ bad :: rest) cf hc cu jobs =
         .error msg) ∧
    (∀ (split folder baseUrl : String), split ≠ "section" →
       ∀ (elems : List Elem) (cf hc cu : String) (jobs : List FileJob),
       (∀ e ∈ elems.takeWhile (fun x => !isEndnotesSection x), goodElem split e) →
       ∃ res, essayWalk split folder baseUrl elems cf hc cu jobs = .ok res) :=
  ⟨fun split folder baseUrl => essayWalk_error_at_bad split folder baseUrl,
   fun split folder baseUrl hs => essayWalk_ok_of_good split folder baseUrl hs⟩

/-- Claim C5 counterexample: a split-tag sibling sitting before an endnotes
section but carrying no id makes the walk raise (the `assert
cur_elem.get('id')`), refuting the unamended "every sibling before an
endnotes section that is a split tag or a content tag is processed without
raising". -/
theorem claim_C5_counterexample :
    isSplitTag "h2" elemH2NoId = true ∧
    isEndnotesSection elemEndnotes = true ∧
    essayWalk "h2" "F" "u" [elemH2NoId, elemEndnotes] "F/T.md" "" "u" [] =
      .error "AssertionError: Expected split tag to have an id" :=
  ⟨by decide, by decide, rfl⟩

/-- Witness for claim C5: a junk `div` raises, and a well-formed sibling
list walks to success. -/
theorem claim_C5_walk_exceptions_witness :
    (∃ msg, essayWalk "h2" "F" "u" ([elemP "A"] ++ elemDiv :: []) "F/T.md" "" "u" [] =
      .error msg) ∧
    (∃ res, essayWalk "h2" "F" "u" essaySibs "F/T.md" "" "u" [] = .ok res) :=
  ⟨claim_C5_walk_exceptions.1 "h2" "F" "u" [elemP "A"] elemDiv [] "F/T.md" "" "u" []
      (by intro e he; rw [List.mem_singleton] at he; subst he
          exact Or.inr ⟨by decide, by decide⟩)
      (by decide) (by decide) (by decide),
   claim_C5_walk_exceptions.2 "h2" "F" "u" (by decide) essaySibs "F/T.md" "" "u" []
      (by intro e he
          have hlist : essaySibs.takeWhile (fun x => !isEndnotesSection x) =
            [elemP "A", elemH2 "x" "S1", elemP "B", elemH2 "y" "S2", elemP "C"] := by decide
          rw [hlist] at he
          simp only [List.mem_cons, List.not_mem_nil, or_false] at he
          rcases he with rfl | rfl | rfl | rfl | rfl
          · exact Or.inr ⟨by decide, by decide⟩
          · exact Or.inl ⟨by decide, "x", by decide, by decide⟩
          · exact Or.inr ⟨by decide, by decide⟩
          · exact Or.inl ⟨by decide, "y", by decide, by decide⟩
          · exact Or.inr ⟨by decide, by decide⟩)⟩

/-! Lemmas about the write chain, for claim C8. -/

theorem writeAllFrom_map_fst (md : String → String) :
    ∀ (chain : List FileJob) (prev : Option FileJob),
      (writeAllFrom md prev chain).map Prod.fst = chain.map FileJob.path := by
  intro chain
  induction chain with
  | nil => intro prev; rfl
  | cons j rest ih => intro prev; simp [writeAllFrom, ih]

theorem writeAllFrom_getElem? (md : String → String) :
    ∀ (chain : List FileJob) (prev : Option FileJob) (i : Nat),
      (writeAllFrom md prev chain)[i]? = (chain[i]?).map (fun j =>
        (j.path, renderJob md (if i = 0 then prev else chain[i - 1]?) chain[i + 1]? j)) := by
  intro chain
  induction chain with
  | nil => intro prev i; simp [writeAllFrom]
  | cons j rest ih =>
    intro prev i
    cases i with
    | zero =>
      cases rest with
      | nil => simp [writeAllFrom]
      | cons b bs => simp [writeAllFrom]
    | succ k =>
      simp only [writeAllFrom, List.getElem?_cons_succ]
      rw [ih (some j) k]
      cases k with
      | zero => simp
      | succ m => simp

/-- Claim C8: the doubly linked `FileWriteJob` chain, modelled as the list
of jobs in creation order (construction with a non-None `previous` sets
`previous.next`, so element `i`'s neighbours are elements `i-1` and `i+1`);
`write_all` on the last job writes every job's file exactly once, in chain
order, and the text of file `i` is rendered with the `Previous`/`Next
section` links naming the adjacent jobs' files. -/
theorem claim_C8_write_all_chain (md : String → String) (chain : List FileJob) :
    (write_all md chain).map Prod.fst = chain.map FileJob.path ∧
    ∀ i : Nat, (write_all md chain)[i]? = (chain[i]?).map (fun j =>
      (j.path, renderJob md (if i = 0 then none else chain[i - 1]?) chain[i + 1]? j)) :=
  ⟨writeAllFrom_map_fst md chain none, fun i => writeAllFrom_getElem? md chain none i⟩

/-! Lemmas about the glossary walk and the root-word map, for claims C3 and
C9. -/

theorem glossWalk_cons_entry_step (md paliStem : String → String) (wc : Char → Bool)
    (split folder url : String) (linkto : Bool) (e : Elem) (rest : List Elem)
    (gm files : List (String × String)) (pid : String)
    (hsp : isSplitTag split e = true) (hid : e.id = some pid) (hpid : pid ≠ "")
    (hterms : e.paliITexts ≠ [])
    (hreg : (glossRegion split rest).all isContentTag = true) :
    glossWalk md paliStem wc split folder url linkto (e :: rest) gm files =
      if (glossContent split rest).length < 100 then
        glossWalk md paliStem wc split folder url linkto rest gm files
      else
        glossWalk md paliStem wc split folder url linkto rest
          (if linkto then
            addWordMappings paliStem (joinPath folder (glossFileName e))
              (pySplitWords wc (glossPaliTerm e)) gm
           else gm)
          (files ++ [(joinPath folder (glossFileName e),
            glossFileText md url pid (glossContent split rest))]) := by
  have htf : e.paliITexts.isEmpty = false := by
    cases hte : e.paliITexts with
    | nil => exact absurd hte hterms
    | cons a as => rfl
  simp only [glossWalk]
  rw [hsp]
  simp only [if_true]
  rw [hid]
  simp only [hpid, if_false]
  rw [htf]
  simp only [Bool.false_eq_true, if_false]
  rw [hreg]
  simp only [Bool.not_true, Bool.false_eq_true, if_false]

/-- Claim C9: a glossary entry whose accumulated content is shorter than
`MIN_CONTENT_LENGTH = 100` contributes nothing: no file is written for it
and no mapping is added, even with `linkto = true` — the walk continues with
the state untouched. -/
theorem claim_C9_short_entry_skipped (md paliStem : String → String) (wc : Char → Bool)
    (split folder url : String) (linkto : Bool) (e : Elem) (rest : List Elem)
    (gm files : List (String × String)) (pid : String)
    (hsp : isSplitTag split e = true) (hid : e.id = some pid) (hpid : pid ≠ "")
    (hterms : e.paliITexts ≠ [])
    (hreg : (glossRegion split rest).all isContentTag = true)
    (hshort : (glossContent split rest).length < 100) :
    glossWalk md paliStem wc split folder url linkto (e :: rest) gm files =
      glossWalk md paliStem wc split folder url linkto rest gm files := by
  rw [glossWalk_cons_entry_step md paliStem wc split folder url linkto e rest gm files pid
    hsp hid hpid hterms hreg]
  rw [if_pos hshort]

/-- Witness for claim C9: a concrete short entry is skipped. -/
theorem claim_C9_short_entry_skipped_witness :
    glossWalk (fun s => s) (fun _ => "s") (fun c => c.isAlpha) "h3" "G" "gu" true
      (glossHead "g1" "abc" :: [elemP "short"]) [] [] =
      glossWalk (fun s => s) (fun _ => "s") (fun c => c.isAlpha) "h3" "G" "gu" true
        [elemP "short"] [] [] :=
  claim_C9_short_entry_skipped (fun s => s) (fun _ => "s") (fun c => c.isAlpha) "h3" "G" "gu"
    true (glossHead "g1" "abc") [elemP "short"] [] [] "g1" (by decide) (by decide) (by decide)
    (by decide) (by decide) (by decide)

theorem dictGet_dictSet_same (g : List (String × String)) (k v : String) :
    dictGet (dictSet g k v) k = some v := by
  simp [dictGet, dictSet]

theorem dictGet_dictSet_other (g : List (String × String)) (a k v : String) (h : k ≠ a) :
    dictGet (dictSet g a v) k = dictGet g k := by
  have hne : (a == k) = false := by
    simp only [beq_eq_false_iff_ne, ne_eq]
    exact fun hcon => h hcon.symm
  simp [dictGet, dictSet, List.find?_cons, hne]

theorem dictGet_fold_dictSet (cf : String) :
    ∀ (alts : List String) (g : List (String × String)) (k : String),
      dictGet (alts.foldl (fun acc a => dictSet acc a cf) g) k =
        if k ∈ alts then some cf else dictGet g k := by
  intro alts
  induction alts with
  | nil => intro g k; simp
  | cons a as ih =>
    intro g k
    simp only [List.foldl_cons]
    rw [ih (dictSet g a cf) k]
    by_cases hin : k ∈ as
    · simp [hin]
    · by_cases hka : k = a
      · subst hka
        simp [hin, dictGet_dictSet_same]
      · simp [hin, hka, dictGet_dictSet_other g a k cf hka]

theorem addWordMappings_frame (paliStem : String → String) (cf : String) :
    ∀ (ws : List String) (g : List (String × String)) (k : String),
      (∀ w ∈ ws, k ≠ paliStem w ∧ k ∉ (otherForms (paliStem w)).getD []) →
      dictGet (addWordMappings paliStem cf ws g) k = dictGet g k := by
  intro ws
  induction ws with
  | nil => intro g k _; rfl
  | cons w ws' ih =>
    intro g k hk
    have hw := hk w (List.mem_cons_self w ws')
    have hk' : ∀ x ∈ ws', k ≠ paliStem x ∧ k ∉ (otherForms (paliStem x)).getD [] :=
      fun x hx => hk x (List.mem_cons_of_mem _ hx)
    simp only [addWordMappings]
    cases hof : otherForms (paliStem w) with
    | none =>
      rw [ih _ _ hk']
      exact dictGet_dictSet_other g (paliStem w) k cf hw.1
    | some forms =>
      rw [ih _ _ hk']
      rw [dictGet_fold_dictSet cf forms (dictSet g (paliStem w) cf) k]
      have hnotin : k ∉ forms := by
        have := hw.2
        rw [hof] at this
        simpa using this
      rw [if_neg hnotin]
      exact dictGet_dictSet_other g (paliStem w) k cf hw.1

theorem addWordMappings_get (paliStem : String → String) (cf : String) :
    ∀ (ws : List String) (g : List (String × String)) (k : String),
      (∃ w ∈ ws, k = paliStem w ∨ k ∈ (otherForms (paliStem w)).getD []) →
      dictGet (addWordMappings paliStem cf ws g) k = some cf := by
  intro ws
  induction ws with
  | nil => intro g k h; simp at h
  | cons w ws' ih =>
    intro g k hex
    simp only [addWordMappings]
    by_cases hin : ∃ x ∈ ws', k = paliStem x ∨ k ∈ (otherForms (paliStem x)).getD []
    · exact ih _ _ hin
    · have hw : k = paliStem w ∨ k ∈ (otherForms (paliStem w)).getD [] := by
        obtain ⟨w0, hw0mem, hw0⟩ := hex
        rcases List.mem_cons.mp hw0mem with h0 | h0
        · subst h0; exact hw0
        · exact absurd ⟨w0, h0, hw0⟩ hin
      have hframe : ∀ x ∈ ws', k ≠ paliStem x ∧ k ∉ (otherForms (paliStem x)).getD [] := by
        intro x hx
        push_neg at hin
        have := hin x hx
        exact ⟨this.1, this.2⟩
      rw [addWordMappings_frame paliStem cf ws' _ k hframe]
      cases hof : otherForms (paliStem w) with
      | none =>
        rcases hw with hw | hw
        · subst hw; exact dictGet_dictSet_same g _ cf
        · rw [hof] at hw; simp at hw
      | some forms =>
        rw [dictGet_fold_dictSet cf forms (dictSet g (paliStem w) cf) k]
        by_cases hkin : k ∈ forms
        · rw [if_pos hkin]
        · rw [if_neg hkin]
          rcases hw with hw | hw
          · subst hw; exact dictGet_dictSet_same g _ cf
          · rw [hof] at hw
            simp only [Option.getD_some] at hw
            exact absurd hw hkin

/-- Claim C3 (amended): processing a glossary entry with `linkto = true`
whose content reaches the minimum length writes the entry's file and leaves
a map in which, for every (in particular every non-empty) word `w` of the
entry's Pali term, `pali_stem w` points to the entry's output file, as does
every alternate form `OTHER_WORD_FORMS` lists for that stem.  These are the
bindings immediately after the entry; an entry processed later can
overwrite them, so the final map keeps the last writer of each key. -/
theorem claim_C3_linkto_mappings (md paliStem : String → String) (wc : Char → Bool)
    (split folder url : String) (e : Elem) (rest : List Elem)
    (gm files : List (String × String)) (pid : String)
    (hsp : isSplitTag split e = true) (hid : e.id = some pid) (hpid : pid ≠ "")
    (hterms : e.paliITexts ≠ [])
    (hreg : (glossRegion split rest).all isContentTag = true)
    (hlong : ¬((glossContent split rest).length < 100)) :
    glossWalk md paliStem wc split folder url true (e :: rest) gm files =
      glossWalk md paliStem wc split folder url true rest
        (addWordMappings paliStem (joinPath folder (glossFileName e))
          (pySplitWords wc (glossPaliTerm e)) gm)
        (files ++ [(joinPath folder (glossFileName e),
          glossFileText md url pid (glossContent split rest))]) ∧
    (∀ w ∈ pySplitWords wc (glossPaliTerm e), w ≠ "" →
      dictGet (addWordMappings paliStem (joinPath folder (glossFileName e))
          (pySplitWords wc (glossPaliTerm e)) gm) (paliStem w) =
        some (joinPath folder (glossFileName e)) ∧
      ∀ a ∈ (otherForms (paliStem w)).getD [],
        dictGet (addWordMappings paliStem (joinPath folder (glossFileName e))
            (pySplitWords wc (glossPaliTerm e)) gm) a =
          some (joinPath folder (glossFileName e))) := by
  constructor
  · rw [glossWalk_cons_entry_step md paliStem wc split folder url true e rest gm files pid
      hsp hid hpid hterms hreg]
    rw [if_neg hlong]
    simp only [if_true]
  · intro w hw _
    constructor
    · exact addWordMappings_get paliStem _ _ gm _ ⟨w, hw, Or.inl rfl⟩
    · intro a ha
      exact addWordMappings_get paliStem _ _ gm _ ⟨w, hw, Or.inr ha⟩

/-- Claim C3 counterexample: two long entries whose Pali words share a stem
(here the stem function is constant) both map the same key; the final map
keeps only the later entry's file, so the earlier entry's words no longer
map to its own file, refuting the claim read against the final
`PALI_ROOT_TO_GLOSSARY_ITEM`. -/
theorem claim_C3_counterexample :
    ((glossWalk (fun s => s) (fun _ => "s") (fun c => c.isAlpha) "h3" "G" "gu" true
        [glossHead "a" "x", longP, glossHead "b" "y", longP] [] []).map
      (fun r => (dictGet r.glossMap "s", r.files.map Prod.fst))) =
      .ok (some "G/y.md", ["G/x.md", "G/y.md"]) ∧
    ("G/y.md" : String) ≠ "G/x.md" := by
  constructor
  · rfl
  · decide

/-- Witness for claim C3: a concrete long entry whose single word's stem is
mapped to the entry's file. -/
theorem claim_C3_linkto_mappings_witness :
    dictGet (addWordMappings (fun _ => "s") (joinPath "G" (glossFileName (glossHead "g1" "abc")))
        (pySplitWords (fun c => c.isAlpha) (glossPaliTerm (glossHead "g1" "abc"))) [])
      ((fun _ : String => "s") "abc") =
      some (joinPath "G" (glossFileName (glossHead "g1" "abc"))) :=
  ((claim_C3_linkto_mappings (fun s => s) (fun _ => "s") (fun c => c.isAlpha) "h3" "G" "gu"
      (glossHead "g1" "abc") [longP] [] [] "g1" (by decide) (by decide) (by decide) (by decide)
      (by decide) (by decide)).2 "abc" (by decide) (by decide)).1

/-! Lemmas about the page loop of `main`, for claims C4, C6, C7 and C10. -/

theorem mainLoop_append (md paliStem : String → String) (wc : Char → Bool)
    (outputDir : String) :
    ∀ (pages1 pages2 : List (String × PageData)) (gm : List (String × String)),
      (mainLoop md paliStem wc outputDir pages1 gm).err = none →
      mainLoop md paliStem wc outputDir (pages1 ++ pages2) gm =
        stAppend (mainLoop md paliStem wc outputDir pages1 gm)
          (mainLoop md paliStem wc outputDir pages2
            (mainLoop md paliStem wc outputDir pages1 gm).glossMap) := by
  intro pages1
  induction pages1 with
  | nil =>
    intro pages2 gm _
    simp only [List.nil_append, mainLoop, stAppend]
  | cons hd rest ih =>
    intro pages2 gm herr
    obtain ⟨path, page⟩ := hd
    simp only [List.cons_append, mainLoop] at herr ⊢
    cases hcfg : lookupConfig path with
    | none =>
      rw [hcfg] at herr
      simp at herr
    | some cfg =>
      rw [hcfg] at herr
      simp only [] at herr ⊢
      by_cases hskip : cfg = EssayConfig.skipEssay
      · simp only [if_pos hskip] at herr ⊢
        exact ih pages2 gm herr
      · simp only [if_neg hskip] at herr ⊢
        cases hrun : runConfig md paliStem wc cfg outputDir (configUrl path) page gm with
        | error e =>
          rw [hrun] at herr
          simp at herr
        | ok pr =>
          obtain ⟨files, gm'⟩ := pr
          rw [hrun] at herr
          simp only [] at herr ⊢
          simp only [List.append_eq] at herr ⊢
          rw [ih pages2 gm' herr]
          simp [stAppend]

/-- One-step reduction of `mainLoop` at a page with a non-skip config whose
`generate_files` raises. -/
theorem mainLoop_cons_fail (md paliStem : String → String) (wc : Char → Bool)
    (outputDir path : String) (page : PageData) (rest : List (String × PageData))
    (gm : List (String × String)) (cfg : EssayConfig) (e : String)
    (hcfg : lookupConfig path = some cfg) (hns : cfg ≠ EssayConfig.skipEssay)
    (hrun : runConfig md paliStem wc cfg outputDir (configUrl path) page gm = .error e) :
    mainLoop md paliStem wc outputDir ((path, page) :: rest) gm =
      ⟨[], ["ERROR Failed to generate " ++ path ++ "!"], gm,
        some (.genFailed path e)⟩ := by
  simp only [mainLoop, hcfg]
  rw [if_neg hns, hrun]

/-- Claim C4: when a page's `generate_files` raises, `main` prints the
error line naming that page, re-raises the same exception unchanged, and
processes no later page: the loop state is the prefix's state plus only the
printed line and the propagated exception; the trailing pages do not appear
anywhere in the result. -/
theorem claim_C4_print_and_reraise (md paliStem : String → String) (wc : Char → Bool)
    (outputDir : String) (pre : List (String × PageData)) (path : String) (page : PageData)
    (rest : List (String × PageData)) (cfg : EssayConfig) (e : String)
    (hpre : (mainLoop md paliStem wc outputDir pre []).err = none)
    (hcfg : lookupConfig path = some cfg) (hns : cfg ≠ EssayConfig.skipEssay)
    (hrun : runConfig md paliStem wc cfg outputDir (configUrl path) page
      (mainLoop md paliStem wc outputDir pre []).glossMap = .error e) :
    mainLoop md paliStem wc outputDir (pre ++ (path, page) :: rest) [] =
      { written := (mainLoop md paliStem wc outputDir pre []).written,
        printed := (mainLoop md paliStem wc outputDir pre []).printed ++
          ["ERROR Failed to generate " ++ path ++ "!"],
        glossMap := (mainLoop md paliStem wc outputDir pre []).glossMap,
        err := some (.genFailed path e) } := by
  rw [mainLoop_append md paliStem wc outputDir pre ((path, page) :: rest) [] hpre]
  rw [mainLoop_cons_fail md paliStem wc outputDir path page rest _ cfg e hcfg hns hrun]
  simp [stAppend]

/-- Witness for claim C4: a page whose essay has two `h1` tags makes
`generate_files` raise; `main` prints the error line and stops. -/
theorem claim_C4_print_and_reraise_witness :
    mainLoop (fun s => s) (fun s => s) (fun c => c.isAlpha) "out"
      ([] ++ ("./matter/general-introduction.html", badEssayPageData) ::
        [("./matter/kd-1-introduction.html", badEssayPageData)]) [] =
      { written := [],
        printed := ["ERROR Failed to generate ./matter/general-introduction.html!"],
        glossMap := [],
        err := some (.genFailed "./matter/general-introduction.html"
          "AssertionError: h1 count") } := by
  have h := claim_C4_print_and_reraise (fun s => s) (fun s => s) (fun c => c.isAlpha) "out"
    [] "./matter/general-introduction.html" badEssayPageData
    [("./matter/kd-1-introduction.html", badEssayPageData)]
    (EssayConfig.importEssay "General" "h2") "AssertionError: h1 count"
    rfl rfl (by decide) rfl
  simpa using h

/-- One-step reduction of `mainLoop` at an unknown page path. -/
theorem mainLoop_cons_noConfig (md paliStem : String → String) (wc : Char → Bool)
    (outputDir path : String) (page : PageData) (rest : List (String × PageData))
    (gm : List (String × String)) (hcfg : lookupConfig path = none) :
    mainLoop md paliStem wc outputDir ((path, page) :: rest) gm =
      ⟨[], [], gm, some (.noConfig path)⟩ := by
  simp only [mainLoop, hcfg]

/-- Skipped pages are removable from the page list without any effect. -/
theorem mainLoop_skip_removable (md paliStem : String → String) (wc : Char → Bool)
    (outputDir path : String) (page : PageData)
    (hcfg : lookupConfig path = some EssayConfig.skipEssay) :
    ∀ (pages1 rest : List (String × PageData)) (gm : List (String × String)),
      mainLoop md paliStem wc outputDir (pages1 ++ (path, page) :: rest) gm =
        mainLoop md paliStem wc outputDir (pages1 ++ rest) gm := by
  intro pages1
  induction pages1 with
  | nil =>
    intro rest gm
    simp [mainLoop, hcfg]
  | cons hd t ih =>
    intro rest gm
    obtain ⟨p0, pg0⟩ := hd
    simp only [List.cons_append, mainLoop]
    cases hc0 : lookupConfig p0 with
    | none => rfl
    | some cfg0 =>
      simp only []
      by_cases hskip0 : cfg0 = EssayConfig.skipEssay
      · rw [if_pos hskip0, if_pos hskip0]
        exact ih rest gm
      · rw [if_neg hskip0, if_neg hskip0]
        cases hr0 : runConfig md paliStem wc cfg0 outputDir (configUrl p0) pg0 gm with
        | error e => rfl
        | ok pr =>
          obtain ⟨files, gm'⟩ := pr
          simp only [List.append_eq]
          rw [ih rest gm']

/-- Claim C6: the processed page set is fixed: a path outside the hardcoded
`ESSAY_CONFIGS` table makes `main` raise `No config for ...` before
generating anything for that page (nothing is written for it or any later
page), and a path mapped to `SkipEssay` is skipped without producing any
output (the run is the same as if the page were absent). -/
theorem claim_C6_fixed_page_set (md paliStem : String → String) (wc : Char → Bool)
    (outputDir : String) :
    (∀ (pre : List (String × PageData)) (path : String) (page : PageData)
       (rest : List (String × PageData)),
       (mainLoop md paliStem wc outputDir pre []).err = none →
       lookupConfig path = none →
       mainLoop md paliStem wc outputDir (pre ++ (path, page) :: rest) [] =
         { written := (mainLoop md paliStem wc outputDir pre []).written,
           printed := (mainLoop md paliStem wc outputDir pre []).printed,
           glossMap := (mainLoop md paliStem wc outputDir pre []).glossMap,
           err := some (.noConfig path) }) ∧
    (∀ (path : String) (page : PageData),
       lookupConfig path = some EssayConfig.skipEssay →
       ∀ (pages1 rest : List (String × PageData)) (gm : List (String × String)),
         mainLoop md paliStem wc outputDir (pages1 ++ (path, page) :: rest) gm =
           mainLoop md paliStem wc outputDir (pages1 ++ rest) gm) := by
  constructor
  · intro pre path page rest hpre hcfg
    rw [mainLoop_append md paliStem wc outputDir pre ((path, page) :: rest) [] hpre]
    rw [mainLoop_cons_noConfig md paliStem wc outputDir path page rest _ hcfg]
    simp [stAppend]
  · intro path page hcfg pages1 rest gm
    exact mainLoop_skip_removable md paliStem wc outputDir path page hcfg pages1 rest gm

/-- Witness for claim C6: an unknown path raises `No config`, and the
hardcoded `foreword` page is skipped. -/
theorem claim_C6_fixed_page_set_witness :
    mainLoop (fun s => s) (fun s => s) (fun c => c.isAlpha) "out"
      ([] ++ ("nope.html", badEssayPageData) :: []) [] =
      { written := [], printed := [], glossMap := [],
        err := some (.noConfig "nope.html") } ∧
    mainLoop (fun s => s) (fun s => s) (fun c => c.isAlpha) "out"
      ([] ++ ("./matter/foreword.html", badEssayPageData) :: []) [] =
      mainLoop (fun s => s) (fun s => s) (fun c => c.isAlpha) "out" ([] ++ []) [] := by
  constructor
  · have h := (claim_C6_fixed_page_set (fun s => s) (fun s => s) (fun c => c.isAlpha) "out").1
      [] "nope.html" badEssayPageData [] rfl rfl
    simpa using h
  · exact (claim_C6_fixed_page_set (fun s => s) (fun s => s) (fun c => c.isAlpha) "out").2
      "./matter/foreword.html" badEssayPageData rfl [] [] []

/-! Path lemmas: every file a configuration writes lies under its folder,
used for claims C7 and C10. -/

theorem essayWalk_paths (split folder baseUrl : String) (p : String → Prop)
    (hp : ∀ t, p (essayFileName folder t)) :
    ∀ (elems : List Elem) (cf hc cu : String) (jobs res : List FileJob),
      essayWalk split folder baseUrl elems cf hc cu jobs = .ok res →
      p cf → (∀ j ∈ jobs, p j.path) → ∀ j ∈ res, p j.path := by
  intro elems
  induction elems with
  | nil =>
    intro cf hc cu jobs res h hcf hjobs
    simp only [essayWalk] at h
    injection h with h
    rw [← h]
    exact hjobs
  | cons e rest ih =>
    intro cf hc cu jobs res h hcf hjobs
    cases hsp : isSplitTag split e with
    | true =>
      cases hid : e.id with
      | none => simp [essayWalk, hsp, hid] at h
      | some i =>
        by_cases hie : i = ""
        · simp [essayWalk, hsp, hid, hie] at h
        · rw [essayWalk_cons_split split folder baseUrl e rest cf hc cu i jobs hsp hid hie] at h
          refine ih _ _ _ _ _ h (hp _) ?_
          intro j hj
          rcases List.mem_append.mp hj with hj | hj
          · exact hjobs j hj
          · rw [List.mem_singleton] at hj
            subst hj
            exact hcf
    | false =>
      cases hct : isContentTag e with
      | true =>
        rw [essayWalk_cons_content split folder baseUrl e rest cf hc cu jobs hsp hct] at h
        exact ih _ _ _ _ _ h hcf hjobs
      | false =>
        cases hsec : (e.name == some "section") with
        | false => simp [essayWalk, hsp, hct, hsec] at h
        | true =>
          cases hrole : e.role with
          | none => simp [essayWalk, hsp, hct, hsec, hrole] at h
          | some r =>
            by_cases hr : r = "doc-endnotes"
            · simp [essayWalk, hsp, hct, hsec, hrole, hr] at h
              intro j hj
              rw [← h] at hj
              exact hjobs j hj
            · simp [essayWalk, hsp, hct, hsec, hrole, hr] at h

theorem generate_files_essay_paths (split folder baseUrl : String) (p : String → Prop)
    (hp : ∀ t, p (essayFileName folder t)) (page : EssayPage) (jobs : List FileJob)
    (hok : generate_files_essay split folder baseUrl page = .ok jobs) :
    ∀ j ∈ jobs, p j.path := by
  simp only [generate_files_essay] at hok
  by_cases h1 : page.h1count ≠ 1
  · rw [if_pos h1] at hok
    exact absurd hok (by simp)
  · rw [if_neg h1] at hok
    by_cases h2 : page.navCount ≥ 2
    · rw [if_pos h2] at hok
      exact absurd hok (by simp)
    · rw [if_neg h2] at hok
      cases hw : essayWalk split folder baseUrl
          (if page.navCount = 1 then page.afterNav else page.afterH1.drop 1)
          (essayFileName folder page.h1title) "" baseUrl [] with
      | error e =>
        rw [hw] at hok
        exact absurd hok (by simp)
      | ok j =>
        rw [hw] at hok
        by_cases hj : j.isEmpty
        · simp [hj] at hok
        · simp only [hj, Bool.false_eq_true, if_false] at hok
          injection hok with hok
          subst hok
          exact essayWalk_paths split folder baseUrl p hp _ _ _ _ _ _ hw (hp _)
            (by intro j hj; cases hj)

theorem glossWalk_cons_nonsplit (md paliStem : String → String) (wc : Char → Bool)
    (split folder url : String) (linkto : Bool) (e : Elem) (rest : List Elem)
    (gm files : List (String × String)) (hsp : isSplitTag split e = false) :
    glossWalk md paliStem wc split folder url linkto (e :: rest) gm files =
      glossWalk md paliStem wc split folder url linkto rest gm files := by
  simp only [glossWalk]
  rw [hsp]
  simp only [Bool.false_eq_true, if_false]

theorem glossWalk_paths (md paliStem : String → String) (wc : Char → Bool)
    (split folder url : String) (linkto : Bool) (p : String → Prop)
    (hp : ∀ e : Elem, p (joinPath folder (glossFileName e))) :
    ∀ (elems : List Elem) (gm files : List (String × String)) (res : GlossResult),
      glossWalk md paliStem wc split folder url linkto elems gm files = .ok res →
      (∀ f ∈ files, p f.1) → ∀ f ∈ res.files, p f.1 := by
  intro elems
  induction elems with
  | nil =>
    intro gm files res h hf
    simp only [glossWalk] at h
    injection h with h
    rw [← h]
    exact hf
  | cons e rest ih =>
    intro gm files res h hf
    cases hsp : isSplitTag split e with
    | false =>
      rw [glossWalk_cons_nonsplit md paliStem wc split folder url linkto e rest gm files hsp] at h
      exact ih _ _ _ h hf
    | true =>
      cases hid : e.id with
      | none => simp [glossWalk, hsp, hid] at h
      | some pid =>
        by_cases hpid : pid = ""
        · simp [glossWalk, hsp, hid, hpid] at h
        · cases hT : e.paliITexts with
          | nil => simp [glossWalk, hsp, hid, hpid, hT] at h
          | cons a as =>
            have hterms : e.paliITexts ≠ [] := by rw [hT]; simp
            cases hreg : (glossRegion split rest).all isContentTag with
            | false => simp [glossWalk, hsp, hid, hpid, hT, hreg] at h
            | true =>
              rw [glossWalk_cons_entry_step md paliStem wc split folder url linkto e rest
                gm files pid hsp hid hpid hterms hreg] at h
              by_cases hlen : (glossContent split rest).length < 100
              · rw [if_pos hlen] at h
                exact ih _ _ _ h hf
              · rw [if_neg hlen] at h
                refine ih _ _ _ h ?_
                intro f hfm
                rcases List.mem_append.mp hfm with hfm | hfm
                · exact hf f hfm
                · rw [List.mem_singleton] at hfm
                  subst hfm
                  exact hp e

theorem runConfig_paths (md paliStem : String → String) (wc : Char → Bool)
    (cfg : EssayConfig) (outputDir url : String) (page : PageData)
    (gm files gm' : List (String × String)) (p : String → Prop)
    (hpe : ∀ sub t, p (essayFileName (joinPath outputDir sub) t))
    (hpg : ∀ (sub : String) (e : Elem), p (joinPath (joinPath outputDir sub) (glossFileName e)))
    (hok : runConfig md paliStem wc cfg outputDir url page gm = .ok (files, gm')) :
    ∀ f ∈ files, p f.1 := by
  cases cfg with
  | skipEssay =>
    simp only [runConfig] at hok
    injection hok with hok
    have h1 : ([] : List (String × String)) = files := congrArg Prod.fst hok
    rw [← h1]
    intro f hf
    cases hf
  | importEssay folder split =>
    simp only [runConfig] at hok
    cases hg : generate_files_essay split (joinPath outputDir folder) url page.essay with
    | error e =>
      rw [hg] at hok
      exact absurd hok (by simp)
    | ok jobs =>
      rw [hg] at hok
      simp only [] at hok
      injection hok with hok
      have h1 : write_all md jobs = files := congrArg Prod.fst hok
      intro f hfm
      rw [← h1] at hfm
      have h2 : f.1 ∈ (write_all md jobs).map Prod.fst := List.mem_map_of_mem _ hfm
      have h3 : (write_all md jobs).map Prod.fst = jobs.map FileJob.path :=
        writeAllFrom_map_fst md jobs none
      rw [h3] at h2
      rcases List.mem_map.mp h2 with ⟨j, hj, hjp⟩
      rw [← hjp]
      exact generate_files_essay_paths split (joinPath outputDir folder) url p
        (hpe folder) page.essay jobs hg j hj
  | importGlossary folder split linkto =>
    simp only [runConfig] at hok
    cases hg : glossWalk md paliStem wc split (joinPath outputDir folder) url linkto
        page.article gm [] with
    | error e =>
      rw [hg] at hok
      exact absurd hok (by simp)
    | ok res =>
      rw [hg] at hok
      simp only [] at hok
      injection hok with hok
      have h1 : res.files = files := congrArg Prod.fst hok
      intro f hfm
      rw [← h1] at hfm
      exact glossWalk_paths md paliStem wc split (joinPath outputDir folder) url linkto p
        (hpg folder) page.article gm [] res hg (by intro f hf; cases hf) f hfm

theorem mainLoop_paths (md paliStem : String → String) (wc : Char → Bool) (outputDir : String)
    (p : String → Prop)
    (hpe : ∀ sub t, p (essayFileName (joinPath outputDir sub) t))
    (hpg : ∀ (sub : String) (e : Elem), p (joinPath (joinPath outputDir sub) (glossFileName e))) :
    ∀ (pages : List (String × PageData)) (gm : List (String × String)),
      ∀ entry ∈ (mainLoop md paliStem wc outputDir pages gm).written,
        ∀ f ∈ entry.2, p f.1 := by
  intro pages
  induction pages with
  | nil =>
    intro gm entry he
    simp [mainLoop] at he
  | cons hd rest ih =>
    intro gm entry he f hfm
    obtain ⟨path, page⟩ := hd
    simp only [mainLoop] at he
    cases hcfg : lookupConfig path with
    | none =>
      rw [hcfg] at he
      simp at he
    | some cfg =>
      rw [hcfg] at he
      simp only [] at he
      by_cases hskip : cfg = EssayConfig.skipEssay
      · rw [if_pos hskip] at he
        exact ih gm entry he f hfm
      · rw [if_neg hskip] at he
        cases hrun : runConfig md paliStem wc cfg outputDir (configUrl path) page gm with
        | error e =>
          rw [hrun] at he
          simp at he
        | ok pr =>
          obtain ⟨files, gm'⟩ := pr
          rw [hrun] at he
          simp only [] at he
          rcases List.mem_cons.mp he with he | he
          · subst he
            exact runConfig_paths md paliStem wc cfg outputDir (configUrl path) page gm
              files gm' p hpe hpg hrun f hfm
          · exact ih gm' entry he f hfm

theorem mainRun_written (md paliStem : String → String) (wc : Char → Bool)
    (rootFolder outputDir : String) (pages : List (String × PageData)) :
    (mainRun md paliStem wc rootFolder outputDir pages).1 =
      mainLoop md paliStem wc outputDir pages [] := by
  simp only [mainRun]
  cases (mainLoop md paliStem wc outputDir pages []).err with
  | none => rfl
  | some e => rfl

theorem joinPath_double_prefix (o sub n : String) :
    (o ++ "/").data <+: (joinPath (joinPath o sub) n).data := by
  unfold joinPath
  have h : o ++ "/" ++ sub ++ "/" ++ n = (o ++ "/") ++ (sub ++ "/" ++ n) := by
    simp [String.append_assoc]
  rw [h, String.data_append]
  exact List.prefix_append _ _

/-- Claim C7: the command line takes the output directory as its positional
argument, and every file main writes for a page lies under exactly that
directory (its path extends `output_dir ++ "/"`). -/
theorem claim_C7_output_dir (md paliStem : String → String) (wc : Char → Bool)
    (rootFolder outputDir : String) (pages : List (String × PageData)) :
    (∀ d : String, cliOutputDir [d] = d) ∧
    (∀ entry ∈ (mainRun md paliStem wc rootFolder outputDir pages).1.written,
      ∀ f ∈ entry.2, (outputDir ++ "/").data <+: f.1.data) := by
  constructor
  · intro d
    rfl
  · rw [mainRun_written]
    exact mainLoop_paths md paliStem wc outputDir
      (fun q => (outputDir ++ "/").data <+: q.data)
      (fun sub t => joinPath_double_prefix outputDir sub (sanitize_file_name t ++ ".md"))
      (fun sub e => joinPath_double_prefix outputDir sub (glossFileName e))
      pages []

set_option maxRecDepth 8000 in
/-- Witness for claim C7: the concrete run of the `general-introduction`
page under output directory `out` puts its first file under `out/`. -/
theorem claim_C7_output_dir_witness :
    ("out" ++ "/").data <+: ("out/General/T.md" : String).data :=
  (claim_C7_output_dir (fun _ => "") (fun s => s) (fun c => c.isAlpha) "R" "out" pagesNav).2
    ("./matter/general-introduction.html",
      [("out/General/T.md", "## By Ajahn Brahmali\n\nSource: <https://suttacentral.net/edition/pli-tv-vi/en/brahmali/general-introduction?lang=en>\n\n\n\n## Next section: [S1](./S1.md)\n  "),
       ("out/General/S1.md", "## By Ajahn Brahmali\n\nSource: <https://suttacentral.net/edition/pli-tv-vi/en/brahmali/general-introduction?lang=en#x>\n\nPrevious: [T](./T.md)\n\n\n\n\n  ")])
    (by decide)
    ("out/General/T.md", "## By Ajahn Brahmali\n\nSource: <https://suttacentral.net/edition/pli-tv-vi/en/brahmali/general-introduction?lang=en>\n\n\n\n## Next section: [S1](./S1.md)\n  ")
    (by decide)

/-! Lemmas about the glossary.json write, for claim C10. -/

theorem joinPath_inj_left (a b n : String) (h : joinPath a n = joinPath b n) : a = b := by
  unfold joinPath at h
  have hd := congrArg String.data h
  simp only [String.data_append] at hd
  have h1 := List.append_cancel_right hd
  have h2 := List.append_cancel_right h1
  cases a
  cases b
  exact congrArg String.mk h2

theorem endsWithD_essay (folder t : String) :
    (essayFileName folder t).data.getLast? = some 'd' := by
  unfold essayFileName joinPath
  simp only [String.data_append]
  simp only [List.getLast?_append]
  rfl

theorem endsWithD_gloss (folder : String) (e : Elem) :
    (joinPath folder (glossFileName e)).data.getLast? = some 'd' := by
  unfold joinPath glossFileName
  by_cases hq : containsQuote (glossGloss e) = true
  · rw [if_pos hq]
    simp only [String.data_append]
    simp only [List.getLast?_append]
    rfl
  · rw [if_neg hq]
    simp only [String.data_append]
    simp only [List.getLast?_append]
    rfl

theorem glossaryPath_last (r : String) :
    (joinPath r "glossary.json").data.getLast? = some 'n' := by
  unfold joinPath
  simp only [String.data_append]
  simp only [List.getLast?_append]
  rfl

theorem mainRun_glossary_eq (md paliStem : String → String) (wc : Char → Bool)
    (rootFolder outputDir : String) (pages : List (String × PageData))
    (g : String × List (String × String))
    (hg : (mainRun md paliStem wc rootFolder outputDir pages).2 = some g) :
    g.1 = joinPath rootFolder "glossary.json" := by
  simp only [mainRun] at hg
  cases hst : (mainLoop md paliStem wc outputDir pages []).err with
  | some e =>
    rw [hst] at hg
    simp at hg
  | none =>
    rw [hst] at hg
    simp only [] at hg
    injection hg with hg
    exact (congrArg Prod.fst hg).symm

/-- Claim C10 (amended): `main` writes `glossary.json` into `ROOT_FOLDER`
for every value of `output_dir` — the target path is
`ROOT_FOLDER/glossary.json`, independent of `output_dir`, so it lands in
the output directory only in the degenerate case `output_dir = ROOT_FOLDER`
— and no page file written under `output_dir` shares its path (they all end
in `.md`), so the page outputs are unaffected by this write. -/
theorem claim_C10_glossary_to_root (md paliStem : String → String) (wc : Char → Bool)
    (rootFolder outputDir : String) (pages : List (String × PageData)) :
    ∀ g ∈ (mainRun md paliStem wc rootFolder outputDir pages).2,
      g.1 = joinPath rootFolder "glossary.json" ∧
      (outputDir ≠ rootFolder → g.1 ≠ joinPath outputDir "glossary.json") ∧
      (∀ entry ∈ (mainRun md paliStem wc rootFolder outputDir pages).1.written,
        ∀ f ∈ entry.2, f.1 ≠ g.1) := by
  intro g hg
  have h1 := mainRun_glossary_eq md paliStem wc rootFolder outputDir pages g hg
  refine ⟨h1, ?_, ?_⟩
  · intro hne hcon
    rw [h1] at hcon
    exact hne (joinPath_inj_left outputDir rootFolder "glossary.json" hcon.symm)
  · intro entry he f hf
    have hd : f.1.data.getLast? = some 'd' := by
      rw [mainRun_written] at he
      exact mainLoop_paths md paliStem wc outputDir
        (fun q => q.data.getLast? = some 'd')
        (fun sub t => endsWithD_essay (joinPath outputDir sub) t)
        (fun sub e => endsWithD_gloss (joinPath outputDir sub) e)
        pages [] entry he f hf
    intro hcon
    rw [hcon, h1, glossaryPath_last] at hd
    exact absurd hd (by decide)

/-- Claim C10 counterexample: with `output_dir` equal to the script folder
(both `"x"` here), `glossary.json` is written directly into the output
directory, refuting the unconditional "never into the output directory". -/
theorem claim_C10_counterexample :
    (mainRun (fun s => s) (fun s => s) (fun c => c.isAlpha) "x" "x" []).2.map Prod.fst =
      some (joinPath "x" "glossary.json") := rfl

/-- Witness for claim C10: a run with distinct root and output folders. -/
theorem claim_C10_glossary_to_root_witness :
    ((joinPath "R" "glossary.json", ([] : List (String × String))).1 =
      joinPath "R" "glossary.json") ∧
    (("out" : String) ≠ "R" →
      (joinPath "R" "glossary.json", ([] : List (String × String))).1 ≠
        joinPath "out" "glossary.json") ∧
    (∀ entry ∈ (mainRun (fun s => s) (fun s => s) (fun c => c.isAlpha) "R" "out" []).1.written,
      ∀ f ∈ entry.2,
        f.1 ≠ (joinPath "R" "glossary.json", ([] : List (String × String))).1) :=
  claim_C10_glossary_to_root (fun s => s) (fun s => s) (fun c => c.isAlpha) "R" "out" []
    (joinPath "R" "glossary.json", []) rfl

end Brahmali
